import Mathlib

/-!
Verification development for the scheduling core of the dog-places
repository: the UpdateScheduler / ScheduledDataService / DataVersionService
trio (src/services/scheduling).  JavaScript numbers are modelled as exact
rationals, timestamps as integers of milliseconds since the Unix epoch
(the process is assumed to run with local time = UTC, so getDay, setHours
and the getFullYear based date maths coincide with their UTC meaning),
and asynchronous waits are recorded in traces rather than performed.
-/

namespace DogPlaces

/-- Model of JavaScript Math.round: round half away from zero upward; on the
nonnegative scores produced in this code it is the floor of x + 1/2, which is
exactly Math.round for every finite value. -/
def jsRound (q : ℚ) : ℤ := ⌊q + 1 / 2⌋

/-- Model of the JavaScript idiom (x || d) on an optional numeric x, as used
for source.config.timeout and source.config.rateLimit: undefined and 0 are
falsy, every other number is kept. -/
def jsOrNum (x : Option ℚ) (d : ℚ) : ℚ :=
  match x with
  | none => d
  | some v => if v = 0 then d else v

/-- Milliseconds per day. -/
def msPerDay : ℤ := 86400000

/-- Milliseconds per hour. -/
def msPerHour : ℤ := 3600000

/-- Model of Date setHours(h,0,0,0) applied conceptually: the start of the
civil day containing timestamp t (local = UTC). -/
def startOfDay (t : ℤ) : ℤ := (t / msPerDay) * msPerDay

/-- Model of Date.prototype.getDay: day of week of timestamp t, 0 = Sunday.
The Unix epoch day (1970-01-01) was a Thursday, weekday 4. -/
def jsGetDay (t : ℤ) : ℤ := (t / msPerDay + 4) % 7

/-- Milliseconds past the start of the day of timestamp t. -/
def msOfDay (t : ℤ) : ℤ := t - startOfDay t

/-- WeeklyUpdateStrategy.getNextUpdateTime from DataVersionService.ts: days
until Sunday is (7 - now.getDay()) % 7, which the code coalesces with
`daysUntilSunday || 7` (so on a Sunday it is 7, not 0); the candidate instant
is that many days ahead at 02:00:00.000, pushed one further week if it is not
strictly after now. -/
def weeklyGetNextUpdateTime (now : ℤ) : ℤ :=
  let daysUntilSunday : ℤ := (7 - jsGetDay now) % 7
  let d : ℤ := if daysUntilSunday = 0 then 7 else daysUntilSunday
  let nextSunday : ℤ := startOfDay now + d * msPerDay + 2 * msPerHour
  if nextSunday ≤ now then nextSunday + 7 * msPerDay else nextSunday

/-- Days from the Unix epoch to the proleptic Gregorian date y-m-d
(Howard Hinnant's civil-from-days algorithm, used to model what
`new Date("YYYY-MM-DDT02:00:00.000Z")` parses to). -/
def daysFromCivil (y m d : ℤ) : ℤ :=
  let y2 : ℤ := if m ≤ 2 then y - 1 else y
  let era : ℤ := (if 0 ≤ y2 then y2 else y2 - 399) / 400
  let yoe : ℤ := y2 - era * 400
  let mp : ℤ := (m + 9) % 12
  let doy : ℤ := (153 * mp + 2) / 5 + d - 1
  let doe : ℤ := yoe * 365 + yoe / 4 - yoe / 100 + doy
  era * 146097 + doe - 719468

/-- Year of the civil date containing epoch day z (inverse direction of
daysFromCivil), modelling Date.prototype.getFullYear under local = UTC. -/
def yearOfDays (z : ℤ) : ℤ :=
  let z2 : ℤ := z + 719468
  let era : ℤ := (if 0 ≤ z2 then z2 else z2 - 146096) / 146097
  let doe : ℤ := z2 - era * 146097
  let yoe : ℤ := (doe - doe / 1460 + doe / 36524 - doe / 146096) / 365
  let y : ℤ := yoe + era * 400
  let doy : ℤ := doe - (365 * yoe + yoe / 4 - yoe / 100)
  let mp : ℤ := (5 * doy + 2) / 153
  let m : ℤ := if mp < 10 then mp + 3 else mp - 9
  if m ≤ 2 then y + 1 else y

/-- Year of the timestamp t, modelling now.getFullYear(). -/
def yearOf (t : ℤ) : ℤ := yearOfDays (t / msPerDay)

/-- Timestamp of 02:00:00.000 UTC on day m-d of year y, modelling
`new Date(yyyy-m-dT02:00:00.000Z)`. -/
def triggerAt (y m d : ℤ) : ℤ := daysFromCivil y m d * msPerDay + 2 * msPerHour

/-- BiannualUpdateStrategy.getNextUpdateTime from DataVersionService.ts:
walks the update dates 01-15 and 07-15 of the current year at 02:00 UTC and
returns the first one strictly after now, falling back to January 15 of the
following year. -/
def biannualGetNextUpdateTime (now : ℤ) : ℤ :=
  let y := yearOf now
  if now < triggerAt y 1 15 then triggerAt y 1 15
  else if now < triggerAt y 7 15 then triggerAt y 7 15
  else triggerAt (y + 1) 1 15

/-- The two update frequencies the ConfigurationFactory ever installs; the
UpdateStrategyFactory maps the strings biannual and weekly to the two
strategies and rejects anything else at configuration time. -/
inductive Frequency where
  | biannual
  | weekly
deriving DecidableEq, Repr

/-- ScheduledDataService.calculateNextUpdate: dispatch through the strategy
factory.  Both concrete strategies read the current clock, not the lastUpdate
argument the TypeScript passes along, so the model takes only now. -/
def calculateNextUpdate (now : ℤ) (frequency : Frequency) : ℤ :=
  match frequency with
  | .biannual => biannualGetNextUpdateTime now
  | .weekly => weeklyGetNextUpdateTime now

/-- Snapshot descriptor of one fetch result (types/DataAcquisition.ts
DataVersion); the metadata block is irrelevant to comparison and omitted. -/
structure DataVersion where
  id : String
  timestamp : ℤ
  hash : String
  recordCount : ℕ
deriving DecidableEq, Repr

/-- Reason field of a VersionComparison. -/
inductive ComparisonReason where
  | noPreviousVersion
  | identicalHash
  | dataChanged
deriving DecidableEq, Repr

/-- Estimated change counts of a VersionComparison (JS numbers: the record
count difference can be negative, so the counts live in ℤ). -/
structure VersionChanges where
  recordsAdded : ℤ
  recordsModified : ℤ
  recordsRemoved : ℤ
deriving DecidableEq, Repr

/-- Result of DataVersionService.compareVersions. -/
structure VersionComparison where
  needsUpdate : Bool
  reason : ComparisonReason
  changes : VersionChanges
  previousVersion : Option DataVersion
  timeSinceLastUpdate : Option ℤ
deriving DecidableEq, Repr

/-- DataVersionService.compareVersions: no previous version forces an update;
identical hashes forbid one; otherwise the change counts are estimated from
the raw record count delta. -/
def compareVersions (now : ℤ) (currentVersion : Option DataVersion)
    (newVersion : DataVersion) : VersionComparison :=
  match currentVersion with
  | none =>
      { needsUpdate := true
        reason := .noPreviousVersion
        changes := ⟨(newVersion.recordCount : ℤ), 0, 0⟩
        previousVersion := none
        timeSinceLastUpdate := none }
  | some current =>
      if current.hash = newVersion.hash then
        { needsUpdate := false
          reason := .identicalHash
          changes := ⟨0, 0, 0⟩
          previousVersion := none
          timeSinceLastUpdate := none }
      else
        let recordDiff : ℤ := (newVersion.recordCount : ℤ) - (current.recordCount : ℤ)
        { needsUpdate := true
          reason := .dataChanged
          changes := ⟨max 0 recordDiff, |recordDiff|, max 0 (-recordDiff)⟩
          previousVersion := some current
          timeSinceLastUpdate := some (now - current.timestamp) }

/-- The data source providers of types/DataAcquisition.ts. -/
inductive Provider where
  | Google
  | URBIS
  | OSM
  | Foursquare
  | BeST_Address
  | Manual
deriving DecidableEq, Repr

/-- Geographic location of a record (types/DataAcquisition.ts GeoLocation;
the optional accuracy field is never read by the scheduling core). -/
structure GeoLocation where
  latitude : ℚ
  longitude : ℚ
deriving DecidableEq, Repr

/-- Common core of AddressData and DogPlaceData that the scheduling code
reads: id, optional placeId, location, lastUpdated and source.  The TS types
declare id, location and lastUpdated as required, so location and lastUpdated
are always present objects here; id is a string that may be empty (the
completeness check treats the empty string as not filled), and placeId is
optional (and may also be the empty string, which JavaScript treats as
falsy). -/
structure DataRecord where
  id : String
  placeId : Option String
  location : GeoLocation
  lastUpdated : ℤ
  source : Provider
deriving DecidableEq, Repr

/-- Result of DataVersionService.calculateQualityMetrics: the four scores the
TypeScript returns, each passed through Math.round. -/
structure QualityMetrics where
  completenessScore : ℤ
  accuracyScore : ℤ
  freshnessScore : ℤ
  overallScore : ℤ
deriving DecidableEq, Repr

/-- Per-record completeness: of the required fields id, location and
lastUpdated, the fraction whose value is not null, undefined or the empty
string.  location and lastUpdated are required non-string fields of the
record types, so only id can fail the check (by being empty). -/
def completenessScoreOfRecord (item : DataRecord) : ℚ :=
  (if item.id = "" then 2 else 3) / 3

/-- The coordinate validity filter of calculateQualityMetrics: latitude in
[-90, 90] and longitude in [-180, 180]. -/
def hasValidCoordinates (item : DataRecord) : Bool :=
  decide (-90 ≤ item.location.latitude) && decide (item.location.latitude ≤ 90) &&
  decide (-180 ≤ item.location.longitude) && decide (item.location.longitude ≤ 180)

/-- 30 days in milliseconds, the maxAge of the freshness score. -/
def maxAgeMs : ℚ := 30 * 24 * 60 * 60 * 1000

/-- DataVersionService.calculateQualityMetrics, line for line: an empty
dataset short-circuits to all zeros; otherwise completeness is the reduce-sum
of per-record scores over the total times 100, accuracy the share of records
with valid coordinates, freshness max(0, (1 - avgAge/maxAge) * 100) with ages
relative to the current clock, and overall their unweighted mean; each
returned score is Math.round of the corresponding rational. -/
def calculateQualityMetrics (now : ℤ) (data : List DataRecord) : QualityMetrics :=
  if data.length = 0 then ⟨0, 0, 0, 0⟩
  else
    let total : ℚ := data.length
    let completenessScore : ℚ :=
      ((data.map completenessScoreOfRecord).foldl (· + ·) 0) / total * 100
    let validLocations := data.filter hasValidCoordinates
    let accuracyScore : ℚ := ((validLocations.length : ℚ) / total) * 100
    let ages := data.map (fun item => ((now - item.lastUpdated : ℤ) : ℚ))
    let avgAge : ℚ := (ages.foldl (· + ·) 0) / total
    let freshnessScore : ℚ := max 0 ((1 - avgAge / maxAgeMs) * 100)
    let overallScore : ℚ := (completenessScore + accuracyScore + freshnessScore) / 3
    ⟨jsRound completenessScore, jsRound accuracyScore,
      jsRound freshnessScore, jsRound overallScore⟩

/-- The completeness quantity as the specification words it (on the 0-100
scale of the other scores): the mean over records of the fraction of
required fields present, times 100. -/
def specCompleteness (data : List DataRecord) : ℚ :=
  (data.map completenessScoreOfRecord).sum / data.length * 100

/-- The accuracy quantity as the specification words it: the fraction of
records whose coordinates are in range, times 100. -/
def specAccuracy (data : List DataRecord) : ℚ :=
  ((data.countP hasValidCoordinates : ℚ) / data.length) * 100

/-- The freshness quantity as the specification words it:
max(0, 1 - avgAgeMs/30days) * 100 with the mean age of the records. -/
def specFreshness (now : ℤ) (data : List DataRecord) : ℚ :=
  let avgAge : ℚ := (data.map (fun item => ((now - item.lastUpdated : ℤ) : ℚ))).sum / data.length
  max 0 ((1 - avgAge / maxAgeMs) * 100)

/-- The overall quantity as the specification words it: the unweighted mean
of the three component quantities. -/
def specOverall (now : ℤ) (data : List DataRecord) : ℚ :=
  (specCompleteness data + specAccuracy data + specFreshness now data) / 3

/-- Deduplication key of ScheduledDataService.deduplicateData: the placeId
when it is truthy (present and non-empty), otherwise the pair of exact
coordinates standing for the template string lat,lng.  (In JavaScript both
kinds of key live in one string space, so a placeId that happens to spell a
coordinate pair could collide with it; the claims only compare keys of the
same kind, where the sum type is exact, since distinct numbers always print
as distinct strings.) -/
def dedupKey (item : DataRecord) : String ⊕ (ℚ × ℚ) :=
  match item.placeId with
  | some p => if p = "" then .inr (item.location.latitude, item.location.longitude) else .inl p
  | none => .inr (item.location.latitude, item.location.longitude)

/-- Membership of a deduplication key in the seen set. -/
def keySeen (seen : List (String ⊕ (ℚ × ℚ))) (key : String ⊕ (ℚ × ℚ)) : Bool :=
  seen.any (fun k => decide (k = key))

/-- Loop of ScheduledDataService.deduplicateData with the seen set made
explicit: keep an item when its key has not been seen, and record the key. -/
def dedupLoop (seen : List (String ⊕ (ℚ × ℚ))) : List DataRecord → List DataRecord
  | [] => []
  | item :: rest =>
    if keySeen seen (dedupKey item) then dedupLoop seen rest
    else item :: dedupLoop (dedupKey item :: seen) rest

/-- ScheduledDataService.deduplicateData: first occurrence of each key
survives. -/
def deduplicateData (data : List DataRecord) : List DataRecord :=
  dedupLoop [] data

/-- The typed error hierarchy of types/DataAcquisition.ts, restricted to what
executeWithFallback can observe: a QuotaExceededError (provider and reset
time) or any other DataAcquisitionError (provider and code).  ValidationError
never escapes validateData (it is caught per record), so it cannot reach the
fallback loop. -/
inductive AcquisitionFailure where
  | quotaExceeded (source : Provider) (resetTime : ℤ)
  | acquisitionError (source : Provider) (code : String)
deriving DecidableEq, Repr

/-- The instanceof QuotaExceededError test of the catch block. -/
def AcquisitionFailure.isQuotaExceeded : AcquisitionFailure → Bool
  | .quotaExceeded _ _ => true
  | .acquisitionError _ _ => false

/-- Daily/monthly quota block of a DataSource (types/DataAcquisition.ts
QuotaConfig); warningThreshold is a percentage of the daily limit. -/
structure QuotaConfig where
  daily : ℚ
  monthly : ℚ
  current : ℚ
  resetTime : ℤ
  warningThreshold : ℚ
deriving DecidableEq, Repr

/-- Reliability record of a DataSource (types/DataAcquisition.ts
ReliabilityMetrics). -/
structure ReliabilityMetrics where
  score : ℚ
  uptime : ℚ
  avgResponseTime : ℚ
  errorRate : ℚ
  lastFailure : Option ℤ
  consecutiveFailures : ℕ
deriving DecidableEq, Repr

/-- Provider-specific configuration of a DataSource; only rateLimit and
timeout are read by the scheduling core (for throttling and the fallback
delay), both optional JS numbers. -/
structure SourceConfig where
  apiKey : Option String
  baseUrl : Option String
  rateLimit : Option ℚ
  timeout : Option ℚ
deriving DecidableEq, Repr

/-- One external data provider of a pipeline (types/DataAcquisition.ts
DataSource). -/
structure DataSource where
  provider : Provider
  priority : ℚ
  isActive : Bool
  quota : QuotaConfig
  reliability : ReliabilityMetrics
  config : SourceConfig
deriving DecidableEq, Repr

/-- ScheduledDataService.calculateReliabilityScore: 0.4 times uptime, plus
0.3 times the error score 100 - errorRate*10 floored at 0, plus 0.3 times a
freshness score that decays by one point per day since the last failure
(100 when none ever happened). -/
def calculateReliabilityScore (now : ℤ) (reliability : ReliabilityMetrics) : ℚ :=
  let uptimeScore := reliability.uptime
  let errorScore := max 0 (100 - reliability.errorRate * 10)
  let freshnessScore :=
    match reliability.lastFailure with
    | some t => max 0 (100 - ((now - t : ℤ) : ℚ) / (24 * 60 * 60 * 1000))
    | none => 100
  (4 / 10) * uptimeScore + (3 / 10) * errorScore + (3 / 10) * freshnessScore

/-- ScheduledDataService.updateSourceReliability: success resets the failure
streak and nudges uptime up by 0.1 (capped at 100); failure increments the
streak, stamps lastFailure and drops uptime by 1 (floored at 0); either way
the score is recomputed. -/
def updateSourceReliability (now : ℤ) (source : DataSource) (success : Bool) : DataSource :=
  let r := source.reliability
  let r1 :=
    if success then
      { r with consecutiveFailures := 0, uptime := min 100 (r.uptime + 1 / 10) }
    else
      { r with consecutiveFailures := r.consecutiveFailures + 1,
               lastFailure := some now,
               uptime := max 0 (r.uptime - 1) }
  { source with reliability := { r1 with score := calculateReliabilityScore now r1 } }

/-- ScheduledDataService.hasAvailableQuota, boolean part: false exactly when
the current daily usage has reached the daily limit. -/
def hasAvailableQuota (source : DataSource) : Bool :=
  decide (source.quota.current < source.quota.daily)

/-- The warning test hasAvailableQuota performs on the path that returns
true: usage at or above warningThreshold percent of the daily limit. -/
def quotaWarningDue (source : DataSource) : Bool :=
  decide (source.quota.current ≥ source.quota.daily * (source.quota.warningThreshold / 100))

/-- Events of the DataUpdateEvent stream that executeWithFallback and
executePipeline emit (the data_validated event is internal to validateData,
which the acquisition oracle absorbs). -/
inductive DataUpdateEv where
  | pipelineStarted (pipelineId : String)
  | pipelineCompleted (pipelineId : String)
  | pipelineFailed (pipelineId : String)
  | sourceConnected (pipelineId : String) (source : Provider)
  | sourceFailed (pipelineId : String) (source : Provider) (failure : AcquisitionFailure)
  | dataPersisted (pipelineId : String) (recordCount : ℕ) (sources : List Provider)
  | quotaWarning (source : Provider) (usage : ℚ) (limit : ℚ)
deriving DecidableEq, Repr

/-- Asynchronous waits of executeWithFallback, recorded instead of slept:
the throttling delay before an acquisition and the back-pressure delay of
the catch block. -/
inductive WaitEv where
  | throttle (ms : ℚ)
  | backoff (ms : ℚ)
deriving DecidableEq, Repr

/-- Whether a wait is the catch-block back-pressure delay. -/
def WaitEv.isBackoff : WaitEv → Bool
  | .backoff _ => true
  | .throttle _ => false

/-- Outcome of acquireDataFromSource followed by validateData for one
source, supplied by an oracle: either the validated record list or a thrown
failure.  The oracle stands for the four provider adapters (absent from the
repository) and the per-record validation, which never throws out of the
batch. -/
inductive FetchOutcome where
  | ok (validated : List DataRecord)
  | failure (e : AcquisitionFailure)

/-- What happened at one source inside the fallback loop. -/
inductive SourceAttemptOutcome where
  | quotaDenied (e : AcquisitionFailure)
  | fetchFailed (e : AcquisitionFailure)
  | fetchOk (validated : List DataRecord)
deriving DecidableEq, Repr

/-- The failure of an attempt outcome, if any. -/
def failureOf : SourceAttemptOutcome → Option AcquisitionFailure
  | .quotaDenied e => some e
  | .fetchFailed e => some e
  | .fetchOk _ => none

/-- Trace record of one iteration of the fallback loop: the source as seen,
the source after its in-place reliability update, what happened, the events
emitted and waits performed during the iteration, and the combined data
accumulated after it. -/
structure SourceAttempt where
  src : DataSource
  srcAfter : DataSource
  outcome : SourceAttemptOutcome
  events : List DataUpdateEv
  waits : List WaitEv
  accAfter : List DataRecord
deriving DecidableEq, Repr

/-- How the fallback loop ended: an error propagated out of it (fallback
disabled), or the loop finished (by break or exhaustion) with the combined
data, sources used and last error. -/
inductive LoopExit where
  | thrown (e : AcquisitionFailure)
  | finished (acc : List DataRecord) (used : List Provider) (lastError : Option AcquisitionFailure)
deriving DecidableEq, Repr

/-- The throttling delay of applyThrottling: 1000 / (rateLimit || 1). -/
def throttleDelay (source : DataSource) : ℚ :=
  1000 / jsOrNum source.config.rateLimit 1

/-- The catch-block back-pressure delay: source.config.timeout || 5000. -/
def backoffDelay (source : DataSource) : ℚ :=
  jsOrNum source.config.timeout 5000

/-- ScheduledDataService.hasMinimumQualityData: empty data never suffices;
otherwise the (rounded) overall quality score must reach the threshold. -/
def hasMinimumQualityData (now : ℤ) (data : List DataRecord) (threshold : ℚ) : Bool :=
  if data.length = 0 then false
  else decide ((((calculateQualityMetrics now data).overallScore : ℤ) : ℚ) ≥ threshold)

/-- Attempt record for a source denied by the quota check: the thrown
QuotaExceededError is caught in the same iteration, the failure is recorded
against the source's reliability, source_failed is emitted (source_connected
is not reached), and the quota branch of the catch waits the back-pressure
delay. -/
def deniedAttempt (now : ℤ) (pid : String) (source : DataSource) (acc : List DataRecord) :
    SourceAttempt :=
  let e := AcquisitionFailure.quotaExceeded source.provider source.quota.resetTime
  { src := source
    srcAfter := updateSourceReliability now source false
    outcome := .quotaDenied e
    events := [.sourceFailed pid source.provider e]
    waits := [.backoff (backoffDelay source)]
    accAfter := acc }

/-- The quota_warning events hasAvailableQuota emits on its true path. -/
def warningEvents (source : DataSource) : List DataUpdateEv :=
  if quotaWarningDue source then
    [.quotaWarning source.provider source.quota.current source.quota.daily]
  else []

/-- Attempt record for a successful acquisition: quota warnings (if due) and
source_connected are emitted, the throttling delay is applied, the validated
data is appended and the source's reliability is credited. -/
def okAttempt (now : ℤ) (pid : String) (source : DataSource) (validated : List DataRecord)
    (acc : List DataRecord) : SourceAttempt :=
  { src := source
    srcAfter := updateSourceReliability now source true
    outcome := .fetchOk validated
    events := warningEvents source ++ [.sourceConnected pid source.provider]
    waits := [.throttle (throttleDelay source)]
    accAfter := acc ++ validated }

/-- Attempt record for a failed acquisition: after the warnings and
source_connected, the throttle was applied, the failure is recorded against
reliability, source_failed is emitted, and the catch waits the back-pressure
delay only when the failure is a QuotaExceededError. -/
def failedAttempt (now : ℤ) (pid : String) (source : DataSource) (e : AcquisitionFailure)
    (acc : List DataRecord) : SourceAttempt :=
  { src := source
    srcAfter := updateSourceReliability now source false
    outcome := .fetchFailed e
    events := warningEvents source ++
      [.sourceConnected pid source.provider, .sourceFailed pid source.provider e]
    waits := [.throttle (throttleDelay source)] ++
      (if e.isQuotaExceeded then [.backoff (backoffDelay source)] else [])
    accAfter := acc }

/-- Prepend an attempt to the trace of a recursive call. -/
def attemptCons (a : SourceAttempt) : List SourceAttempt × LoopExit → List SourceAttempt × LoopExit
  | (atts, ex) => (a :: atts, ex)

/-- The for loop of ScheduledDataService.executeWithFallback over the active
sources sorted by priority, with the mutable combinedData, sourcesUsed and
lastError made explicit.  Each iteration: a source at its daily quota limit
throws QuotaExceededError before source_connected, which the catch block
records, reports, delays on (quota errors always delay) and either
propagates (fallback disabled) or skips; otherwise the acquisition oracle is
consulted after the throttle, success appends the validated data, credits
reliability, and breaks once the accumulated data passes
hasMinimumQualityData, while failure is recorded and either propagated or
skipped like the quota case (but delays only for quota errors). -/
def runSources (now : ℤ) (fetch : DataSource → FetchOutcome) (pid : String) (threshold : ℚ)
    (enableFallback : Bool) :
    List DataSource → List DataRecord → List Provider → Option AcquisitionFailure →
    List SourceAttempt × LoopExit
  | [], acc, used, lastError => ([], .finished acc used lastError)
  | source :: rest, acc, used, lastError =>
    if hasAvailableQuota source then
      match fetch source with
      | .ok validated =>
        let acc2 := acc ++ validated
        if hasMinimumQualityData now acc2 threshold then
          ([okAttempt now pid source validated acc], .finished acc2 (used ++ [source.provider]) lastError)
        else
          attemptCons (okAttempt now pid source validated acc)
            (runSources now fetch pid threshold enableFallback rest acc2 (used ++ [source.provider]) lastError)
      | .failure e =>
        if enableFallback then
          attemptCons (failedAttempt now pid source e acc)
            (runSources now fetch pid threshold enableFallback rest acc used (some e))
        else ([failedAttempt now pid source e acc], .thrown e)
    else
      let e := AcquisitionFailure.quotaExceeded source.provider source.quota.resetTime
      if enableFallback then
        attemptCons (deniedAttempt now pid source acc)
          (runSources now fetch pid threshold enableFallback rest acc used (some e))
      else ([deniedAttempt now pid source acc], .thrown e)

/-- Insertion of a source into a list sorted by ascending priority,
placing it after existing entries of equal priority. -/
def insertByPriority (s : DataSource) : List DataSource → List DataSource
  | [] => [s]
  | t :: ts => if s.priority < t.priority then s :: t :: ts else t :: insertByPriority s ts

/-- The JavaScript sort((a, b) => a.priority - b.priority): a stable
ascending sort by priority (the result of a stable sort under a total
preorder is unique, so any stable implementation models it). -/
def sortByPriority : List DataSource → List DataSource
  | [] => []
  | s :: ss => insertByPriority s (sortByPriority ss)

/-- The activeSources list of executeWithFallback: the pipeline's sources
filtered to the active ones and sorted by ascending priority. -/
def sortedActiveSources (sources : List DataSource) : List DataSource :=
  sortByPriority (sources.filter (·.isActive))

/-- The two data types a pipeline can carry. -/
inductive DataType where
  | addresses
  | dogPlaces
deriving DecidableEq, Repr

/-- The name of a data type, as used in pipeline ids. -/
def DataType.name : DataType → String
  | .addresses => "addresses"
  | .dogPlaces => "dogPlaces"

/-- Pipeline status values of types/DataAcquisition.ts. -/
inductive PipelineStatus where
  | idle
  | scheduled
  | running
  | completed
  | failed
  | paused
  | cancelled
deriving DecidableEq, Repr

/-- Cumulative pipeline metrics (types/DataAcquisition.ts PipelineMetrics). -/
structure PipelineMetrics where
  totalRuns : ℕ
  successfulRuns : ℕ
  failedRuns : ℕ
  avgDuration : ℚ
  lastRunDuration : Option ℚ
  recordsProcessed : ℕ
  recordsAdded : ℕ
  recordsUpdated : ℕ
  recordsSkipped : ℕ
deriving DecidableEq, Repr

/-- Validation block of a pipeline config; requiredFields, geoValidation and
duplicateDetection parameterise validateData, which the acquisition oracle
absorbs, so only the qualityThreshold is carried. -/
structure ValidationConfig where
  qualityThreshold : ℚ
deriving DecidableEq, Repr

/-- Fallback block of a pipeline config; fallbackSources and fallbackDelay
are configured but never read by executeWithFallback. -/
structure FallbackConfig where
  enableFallback : Bool
deriving DecidableEq, Repr

/-- The pipeline config block read by the scheduling core. -/
structure PipelineConfig where
  maxRetries : ℕ
  timeoutMs : ℚ
  batchSize : ℕ
  validation : ValidationConfig
  fallback : FallbackConfig
deriving DecidableEq, Repr

/-- One recurring data pipeline (types/DataAcquisition.ts
DataUpdatePipeline). -/
structure Pipeline where
  id : String
  type : DataType
  frequency : Frequency
  lastUpdate : Option ℤ
  nextUpdate : ℤ
  sources : List DataSource
  status : PipelineStatus
  config : PipelineConfig
  metrics : PipelineMetrics
deriving DecidableEq, Repr

/-- Result record of a pipeline execution (ScheduledDataService.ts
PipelineExecutionResult), extended with the deduplicated list handed to the
persistence adapter so that deduplication is observable. -/
structure PipelineExecutionResult where
  success : Bool
  recordsProcessed : ℕ
  recordsPersisted : ℕ
  recordsSkipped : ℕ
  sourcesUsed : List Provider
  qualityScore : ℤ
  persistedData : List DataRecord
deriving DecidableEq, Repr

/-- What FirestoreService.batchUpsert reports back (the adapter itself is
not in the repository; an oracle supplies its counts). -/
structure PersistResult where
  recordsPersisted : ℕ
  recordsSkipped : ℕ
deriving DecidableEq, Repr

/-- Full trace of one executeWithFallback call: the per-source attempts,
the flattened event and wait streams, and the returned result or thrown
error. -/
structure FallbackRun where
  attempts : List SourceAttempt
  events : List DataUpdateEv
  waits : List WaitEv
  result : Except AcquisitionFailure PipelineExecutionResult

/-- ScheduledDataService.executeWithFallback: run the loop over the active
sources sorted by priority; afterwards, if nothing was collected and an
error was recorded, rethrow the last error; otherwise deduplicate, persist,
emit data_persisted and return the result record. -/
def executeWithFallback (now : ℤ) (fetch : DataSource → FetchOutcome)
    (persist : List DataRecord → PersistResult) (p : Pipeline) : FallbackRun :=
  let r := runSources now fetch p.id p.config.validation.qualityThreshold
    p.config.fallback.enableFallback (sortedActiveSources p.sources) [] [] none
  let atts := r.1
  let evs := (atts.map (·.events)).flatten
  let ws := (atts.map (·.waits)).flatten
  match r.2 with
  | .thrown e => { attempts := atts, events := evs, waits := ws, result := .error e }
  | .finished acc used lastError =>
    let proceed : FallbackRun :=
      let uniqueData := deduplicateData acc
      let pr := persist uniqueData
      { attempts := atts
        events := evs ++ [.dataPersisted p.id pr.recordsPersisted used]
        waits := ws
        result := .ok
          { success := true
            recordsProcessed := acc.length
            recordsPersisted := pr.recordsPersisted
            recordsSkipped := pr.recordsSkipped
            sourcesUsed := used
            qualityScore := (calculateQualityMetrics now uniqueData).overallScore
            persistedData := uniqueData } }
    if acc.length = 0 then
      match lastError with
      | some e => { attempts := atts, events := evs, waits := ws, result := .error e }
      | none => proceed
    else proceed

/-- Errors executePipeline can throw: the unknown-pipeline runtime error or a
propagated acquisition failure. -/
inductive ServiceError where
  | pipelineNotFound (id : String)
  | acquisition (e : AcquisitionFailure)
deriving DecidableEq, Repr

/-- JavaScript Map.set on an association list: replace the value in place
when the key is present, append otherwise. -/
def mapSet {α : Type} (l : List (String × α)) (k : String) (v : α) : List (String × α) :=
  if l.any (fun e => e.1 == k) then
    l.map (fun e => if e.1 == k then (k, v) else e)
  else l ++ [(k, v)]

/-- ScheduledDataService.updatePipelineMetrics: bump totalRuns, then exactly
one of successfulRuns (also folding the result's record counts in) or
failedRuns, then recompute the running average duration with the updated
totalRuns and stamp lastRunDuration. -/
def updatePipelineMetrics (m : PipelineMetrics) (success : Bool) (duration : ℚ)
    (result : Option PipelineExecutionResult) : PipelineMetrics :=
  let m1 := { m with totalRuns := m.totalRuns + 1 }
  let m2 :=
    if success then
      let ms := { m1 with successfulRuns := m1.successfulRuns + 1 }
      match result with
      | some r =>
        { ms with recordsProcessed := ms.recordsProcessed + r.recordsProcessed,
                  recordsAdded := ms.recordsAdded + r.recordsPersisted }
      | none => ms
    else { m1 with failedRuns := m1.failedRuns + 1 }
  let totalDuration := m.avgDuration * ((m2.totalRuns : ℚ) - 1) + duration
  { m2 with avgDuration := totalDuration / (m2.totalRuns : ℚ),
            lastRunDuration := some duration }

/-- ScheduledDataService.executePipeline: throw on an unknown id; otherwise
set the pipeline running, emit pipeline_started, run the fallback, and on
success update metrics, mark completed, stamp lastUpdate, recompute
nextUpdate and emit pipeline_completed; on failure update metrics, mark
failed, emit pipeline_failed and rethrow.  t0 is the clock at the start of
the run (used by every Date.now() inside it), t1 the clock when it ends, so
the measured duration is t1 - t0. -/
def executePipeline (t0 t1 : ℤ) (fetch : DataSource → FetchOutcome)
    (persist : List DataRecord → PersistResult) (st : List (String × Pipeline))
    (pipelineId : String) :
    List (String × Pipeline) × List DataUpdateEv × Except ServiceError PipelineExecutionResult :=
  match st.lookup pipelineId with
  | none => (st, [], .error (.pipelineNotFound pipelineId))
  | some p =>
    let run := executeWithFallback t0 fetch persist p
    let duration : ℚ := ((t1 - t0 : ℤ) : ℚ)
    match run.result with
    | .ok r =>
      let p2 := { p with
        status := .completed
        metrics := updatePipelineMetrics p.metrics true duration (some r)
        lastUpdate := some t1
        nextUpdate := calculateNextUpdate t1 p.frequency }
      (mapSet st pipelineId p2,
        .pipelineStarted pipelineId :: run.events ++ [.pipelineCompleted pipelineId],
        .ok r)
    | .error e =>
      let p2 := { p with
        status := .failed
        metrics := updatePipelineMetrics p.metrics false duration none }
      (mapSet st pipelineId p2,
        .pipelineStarted pipelineId :: run.events ++ [.pipelineFailed pipelineId],
        .error (.acquisition e))

/-- One pipeline configuration handed to initializePipelines. -/
structure PipelineConfiguration where
  type : DataType
  frequency : Frequency
  sources : List DataSource
  config : PipelineConfig
deriving Repr

/-- The pipeline record ScheduledDataService.initializePipelines builds from
one configuration: id derived from the type, status idle, nextUpdate from
the strategy, and all metrics zeroed. -/
def initializePipeline (now : ℤ) (cfg : PipelineConfiguration) : Pipeline :=
  { id := cfg.type.name ++ "_pipeline"
    type := cfg.type
    frequency := cfg.frequency
    lastUpdate := none
    nextUpdate := calculateNextUpdate now cfg.frequency
    sources := cfg.sources
    status := .idle
    config := cfg.config
    metrics :=
      { totalRuns := 0, successfulRuns := 0, failedRuns := 0, avgDuration := 0,
        lastRunDuration := none, recordsProcessed := 0, recordsAdded := 0,
        recordsUpdated := 0, recordsSkipped := 0 } }

/-- ScheduledDataService.initializePipelines over the pipelines map:
each configuration's pipeline replaces any prior one with the same id. -/
def initializePipelines (now : ℤ) (st : List (String × Pipeline))
    (configs : List PipelineConfiguration) : List (String × Pipeline) :=
  configs.foldl (fun acc cfg => mapSet acc (initializePipeline now cfg).id (initializePipeline now cfg)) st

/-- The timer bookkeeping of UpdateScheduler: the timers map from pipeline id
to a timer handle, the set of handles passed to clearTimeout, and the next
fresh handle.  A handle can fire only if it was allocated and never
cleared. -/
structure TimerState where
  timers : List (String × ℕ)
  cancelled : List ℕ
  nextTimerId : ℕ
deriving DecidableEq, Repr

/-- The scheduler's timer map before start: empty, nothing allocated. -/
def initialTimerState : TimerState := ⟨[], [], 0⟩

/-- UpdateScheduler.schedulePipeline, timer part: clearTimeout on the
existing timer for the pipeline id if there is one, then set a fresh timer
under that id (the computed delay max(0, nextUpdate - now) does not affect
which timers are live, so the model tracks handles only). -/
def schedulePipelineTimer (st : TimerState) (pipelineId : String) : TimerState :=
  let cancelled :=
    match st.timers.lookup pipelineId with
    | some t => st.cancelled ++ [t]
    | none => st.cancelled
  { timers := mapSet st.timers pipelineId st.nextTimerId
    cancelled := cancelled
    nextTimerId := st.nextTimerId + 1 }

/-- UpdateScheduler.stop: clearTimeout on every timer of the map, then clear
the map. -/
def stopScheduler (st : TimerState) : TimerState :=
  { timers := []
    cancelled := st.cancelled ++ st.timers.map (·.2)
    nextTimerId := st.nextTimerId }

/-- The operations that touch the timer map over a scheduler's lifetime:
schedulePipeline (from start, a timer callback rescheduling itself, or
executeNow's reschedule) and stop. -/
inductive SchedulerOp where
  | schedulePipeline (pipelineId : String)
  | stop
deriving DecidableEq, Repr

/-- Apply one scheduler operation to the timer state. -/
def applySchedulerOp (st : TimerState) : SchedulerOp → TimerState
  | .schedulePipeline pid => schedulePipelineTimer st pid
  | .stop => stopScheduler st

/-- The timer state after a sequence of scheduler operations from startup. -/
def runSchedulerOps (ops : List SchedulerOp) : TimerState :=
  ops.foldl applySchedulerOp initialTimerState

/-- Errors executeNow can reject with: unknown pipeline, pipeline already
running, or an error propagated from executePipeline. -/
inductive SchedulerError where
  | pipelineNotFound (id : String)
  | alreadyRunning (id : String)
  | serviceError (e : ServiceError)
deriving DecidableEq, Repr

/-- The state executeNow touches: the service's pipelines map and the timer
bookkeeping. -/
structure SchedulerFullState where
  service : List (String × Pipeline)
  timerState : TimerState

/-- UpdateScheduler.executeNow: reject if the pipeline is unknown or already
running (starting nothing); otherwise run executePipeline once, propagate
its error (leaving the timers untouched), and on success reschedule the
pipeline's timer. -/
def executeNow (t0 t1 : ℤ) (fetch : DataSource → FetchOutcome)
    (persist : List DataRecord → PersistResult) (st : SchedulerFullState)
    (pipelineId : String) :
    SchedulerFullState × List DataUpdateEv × Except SchedulerError Unit :=
  match st.service.lookup pipelineId with
  | none => (st, [], .error (.pipelineNotFound pipelineId))
  | some p =>
    if p.status = .running then (st, [], .error (.alreadyRunning pipelineId))
    else
      match executePipeline t0 t1 fetch persist st.service pipelineId with
      | (svc, evs, .ok _) =>
        ({ service := svc, timerState := schedulePipelineTimer st.timerState pipelineId },
          evs, .ok ())
      | (svc, evs, .error e) =>
        ({ st with service := svc }, evs, .error (.serviceError e))

/-- C3: compareVersions returns needsUpdate with reason NO_PREVIOUS_VERSION
whenever current is null; needsUpdate false with IDENTICAL_HASH whenever the
hashes are equal; and otherwise needsUpdate with DATA_CHANGED and change
counts from the record-count delta d: added = max(0, d),
removed = max(0, -d), modified = the absolute value of d. -/
theorem compareVersions_spec (now : ℤ) (c v : DataVersion) :
    compareVersions now none v =
      { needsUpdate := true
        reason := .noPreviousVersion
        changes := ⟨(v.recordCount : ℤ), 0, 0⟩
        previousVersion := none
        timeSinceLastUpdate := none } ∧
    (compareVersions now (some c) v).needsUpdate = decide (c.hash ≠ v.hash) ∧
    (compareVersions now (some c) v).reason =
      (if c.hash = v.hash then .identicalHash else .dataChanged) ∧
    (compareVersions now (some c) v).changes =
      (if c.hash = v.hash then ⟨0, 0, 0⟩ else
        ⟨max 0 ((v.recordCount : ℤ) - (c.recordCount : ℤ)),
          |(v.recordCount : ℤ) - (c.recordCount : ℤ)|,
          max 0 (-((v.recordCount : ℤ) - (c.recordCount : ℤ)))⟩) := by
  refine ⟨rfl, ?_, ?_, ?_⟩ <;>
    · unfold compareVersions
      by_cases h : c.hash = v.hash <;> simp [h]

/-- The fourth claim as the specification states it: for the weekly
strategy, a "now" on a Sunday at 01:00 yields the same day at 02:00, and a
Sunday at 03:00 yields the following Sunday at 02:00. -/
def ClaimC4Statement : Prop :=
  ∀ t : ℤ, jsGetDay t = 0 →
    (msOfDay t = msPerHour →
      weeklyGetNextUpdateTime t = startOfDay t + 2 * msPerHour) ∧
    (msOfDay t = 3 * msPerHour →
      weeklyGetNextUpdateTime t = startOfDay t + 7 * msPerDay + 2 * msPerHour)

/-- C4 counterexample: at the Sunday 1970-01-04 01:00 (timestamp
3 days + 1 hour), the weekly strategy returns 1970-01-11 02:00 — the
following Sunday — not the same day at 02:00, because daysUntilSunday is
coalesced with a 7 before the candidate is built. -/
theorem weekly_sunday_0100_counterexample : ¬ ClaimC4Statement := by
  intro h
  have h2 := (h (3 * msPerDay + msPerHour) (by decide)).1 (by decide)
  rw [show weeklyGetNextUpdateTime (3 * msPerDay + msPerHour) =
      10 * msPerDay + 2 * msPerHour by decide] at h2
  revert h2
  decide

/-- C4 (corrected): for the weekly strategy, getNextUpdateTime evaluated at
any instant of a Sunday — in particular at 01:00 as well as at 03:00 —
returns the following Sunday at 02:00, seven days out, never the same-day
02:00 run. -/
theorem weeklyGetNextUpdateTime_on_sunday (t : ℤ) (h : jsGetDay t = 0) :
    weeklyGetNextUpdateTime t = startOfDay t + 7 * msPerDay + 2 * msPerHour := by
  simp only [weeklyGetNextUpdateTime, h]
  norm_num
  intro hle
  simp only [startOfDay, msPerDay, msPerHour] at hle ⊢
  omega

/-- C4 witness: the corrected statement applied at the concrete Sunday
1970-01-04 01:00. -/
theorem weeklyGetNextUpdateTime_on_sunday_witness :
    weeklyGetNextUpdateTime (3 * msPerDay + msPerHour) =
      startOfDay (3 * msPerDay + msPerHour) + 7 * msPerDay + 2 * msPerHour :=
  weeklyGetNextUpdateTime_on_sunday (3 * msPerDay + msPerHour) (by decide)

/-- The sixth claim as the specification states it: on a non-empty dataset
the four returned scores equal the specified rational quantities exactly,
and the empty dataset yields all zeros. -/
def ClaimC6Statement : Prop :=
  (∀ (now : ℤ) (data : List DataRecord), data ≠ [] →
    ((calculateQualityMetrics now data).completenessScore : ℚ) = specCompleteness data ∧
    ((calculateQualityMetrics now data).accuracyScore : ℚ) = specAccuracy data ∧
    ((calculateQualityMetrics now data).freshnessScore : ℚ) = specFreshness now data ∧
    ((calculateQualityMetrics now data).overallScore : ℚ) = specOverall now data) ∧
  ∀ now : ℤ, calculateQualityMetrics now [] = ⟨0, 0, 0, 0⟩

/-- C6 counterexample: on the two-record dataset with one empty id and ages
zero, the mean completeness is 250/3 percent, but the code returns
Math.round of it, 83, so the returned score differs from the specified
unrounded quantity. -/
theorem quality_rounding_counterexample : ¬ ClaimC6Statement := by
  intro h
  have h1 := (h.1 0
    [⟨"a", none, ⟨0, 0⟩, 0, .Google⟩, ⟨"", none, ⟨0, 0⟩, 0, .Google⟩]
    (by simp)).1
  simp only [calculateQualityMetrics, specCompleteness, completenessScoreOfRecord,
    jsRound, List.map_cons, List.map_nil, List.foldl, List.sum_cons, List.sum_nil,
    List.length_cons, List.length_nil] at h1
  rw [if_neg (by decide : ¬("a" : String) = "")] at h1
  norm_num at h1

/-- C6 (corrected): calculateQualityMetrics returns all four scores equal to
zero on the empty dataset (never NaN), and on a non-empty dataset returns
Math.round of each specified quantity — completeness, accuracy and freshness
rounded to the nearest integer — with overall the rounding of the unweighted
mean of the three unrounded quantities. -/
theorem calculateQualityMetrics_spec (now : ℤ) (data : List DataRecord) :
    calculateQualityMetrics now data =
      if data.length = 0 then ⟨0, 0, 0, 0⟩
      else
        ⟨jsRound (specCompleteness data), jsRound (specAccuracy data),
          jsRound (specFreshness now data), jsRound (specOverall now data)⟩ := by
  by_cases hd : data.length = 0
  · simp [calculateQualityMetrics, hd]
  · simp only [calculateQualityMetrics, specOverall, specCompleteness, specAccuracy,
      specFreshness, List.sum_eq_foldl, List.countP_eq_length_filter, hd, if_false]

/-- Keys seen is exactly membership of the seen list. -/
theorem keySeen_iff (seen : List (String ⊕ (ℚ × ℚ))) (k : String ⊕ (ℚ × ℚ)) :
    keySeen seen k = true ↔ k ∈ seen := by
  simp only [keySeen, List.any_eq_true, decide_eq_true_eq]
  constructor
  · rintro ⟨x, hx, rfl⟩; exact hx
  · intro hk; exact ⟨k, hk, rfl⟩

/-- Every record the deduplication loop emits has a key outside the seen
set it started from. -/
theorem dedupLoop_key_not_seen (data : List DataRecord) :
    ∀ (seen : List (String ⊕ (ℚ × ℚ))) (r : DataRecord),
      r ∈ dedupLoop seen data → dedupKey r ∉ seen := by
  induction data with
  | nil => intro seen r hr; simp [dedupLoop] at hr
  | cons item rest ih =>
    intro seen r hr
    simp only [dedupLoop] at hr
    split at hr
    · exact ih seen r hr
    · rename_i hk
      rcases List.mem_cons.mp hr with h1 | h2
      · subst h1
        intro hc
        exact hk ((keySeen_iff _ _).mpr hc)
      · intro hc
        exact ih _ r h2 (List.mem_cons_of_mem _ hc)

/-- The keys of the deduplication loop's output are pairwise distinct. -/
theorem dedupLoop_keys_nodup (data : List DataRecord) :
    ∀ seen, ((dedupLoop seen data).map dedupKey).Nodup := by
  induction data with
  | nil => intro seen; simp [dedupLoop]
  | cons item rest ih =>
    intro seen
    simp only [dedupLoop]
    split
    · exact ih seen
    · simp only [List.map_cons, List.nodup_cons]
      refine ⟨?_, ih _⟩
      intro hmem
      obtain ⟨q, hq, hkey⟩ := List.mem_map.mp hmem
      exact dedupLoop_key_not_seen rest _ q hq (hkey ▸ List.mem_cons_self _ _)

/-- Every input record's key is either already seen or represented in the
loop's output. -/
theorem dedupLoop_covers (data : List DataRecord) :
    ∀ (seen : List (String ⊕ (ℚ × ℚ))) (r : DataRecord), r ∈ data →
      dedupKey r ∈ seen ∨ ∃ q ∈ dedupLoop seen data, dedupKey q = dedupKey r := by
  induction data with
  | nil => intro seen r hr; cases hr
  | cons item rest ih =>
    intro seen r hr
    simp only [dedupLoop]
    rcases List.mem_cons.mp hr with h1 | h2
    · subst h1
      split
      · rename_i hk
        left; exact (keySeen_iff _ _).mp hk
      · right; exact ⟨r, List.mem_cons_self _ _, rfl⟩
    · split
      · exact ih seen r h2
      · rcases ih (dedupKey item :: seen) r h2 with hs | ⟨q, hq, hk⟩
        · rcases List.mem_cons.mp hs with heq | hseen
          · right; exact ⟨item, List.mem_cons_self _ _, heq.symm⟩
          · left; exact hseen
        · right; exact ⟨q, List.mem_cons_of_mem _ hq, hk⟩

/-- The seventh claim as the specification states it: among the survivors of
deduplication no two distinct records share a placeId, and no two distinct
records without placeId have coordinates that agree after rounding. -/
def ClaimC7Statement : Prop :=
  ∀ (data : List DataRecord) (r1 r2 : DataRecord),
    r1 ∈ deduplicateData data → r2 ∈ deduplicateData data → r1 ≠ r2 →
    (∀ p : String, r1.placeId = some p → r2.placeId ≠ some p) ∧
    (r1.placeId = none → r2.placeId = none →
      ¬(jsRound r1.location.latitude = jsRound r2.location.latitude ∧
        jsRound r1.location.longitude = jsRound r2.location.longitude))

/-- C7 counterexample: two placeId-less records at latitudes 2/5 and 3/10
(same longitude) both round to latitude 0, yet deduplication keys on the
exact coordinate string, so both survive. -/
theorem dedup_rounding_counterexample : ¬ ClaimC7Statement := by
  intro h
  have hout : deduplicateData
      [⟨"a", none, ⟨2 / 5, 0⟩, 0, .Google⟩, ⟨"b", none, ⟨3 / 10, 0⟩, 0, .Google⟩] =
      [⟨"a", none, ⟨2 / 5, 0⟩, 0, .Google⟩, ⟨"b", none, ⟨3 / 10, 0⟩, 0, .Google⟩] := by
    norm_num [deduplicateData, dedupLoop, keySeen, dedupKey]
  have h2 := h _ _ _
    (hout ▸ List.mem_cons_self _ _)
    (hout ▸ List.mem_cons_of_mem _ (List.mem_cons_self _ _))
    (by norm_num)
  refine (h2.2 rfl rfl) ⟨?_, rfl⟩
  norm_num [jsRound]

/-- C7 (corrected): in the combined output after deduplication all surviving
records have pairwise distinct deduplication keys — the non-empty placeId
when present, otherwise the exact lat,lng coordinate pair, with no rounding
— so of any two records with the same non-empty placeId only one survives,
of any two placeId-less records with identical exact coordinates only one
survives, and every input record's key is still represented. -/
theorem deduplicateData_unique_keys (data : List DataRecord) :
    ((deduplicateData data).map dedupKey).Nodup ∧
    ∀ r ∈ data, ∃ q ∈ deduplicateData data, dedupKey q = dedupKey r := by
  constructor
  · exact dedupLoop_keys_nodup data []
  · intro r hr
    rcases dedupLoop_covers data [] r hr with hs | h
    · cases hs
    · exact h

@[simp]
theorem attemptCons_fst (a : SourceAttempt) (r : List SourceAttempt × LoopExit) :
    (attemptCons a r).1 = a :: r.1 := by
  cases r; rfl

@[simp]
theorem attemptCons_snd (a : SourceAttempt) (r : List SourceAttempt × LoopExit) :
    (attemptCons a r).2 = r.2 := by
  cases r; rfl

/-- Every attempt the fallback loop records is one of the three iteration
shapes: a quota denial (quota check false), a successful acquisition or a
failed acquisition (quota check true, oracle consulted), each with the
corresponding trace record. -/
theorem runSources_attempt_shape (now : ℤ) (fetch : DataSource → FetchOutcome)
    (pid : String) (thr : ℚ) (fb : Bool) :
    ∀ (srcs : List DataSource) (acc : List DataRecord) (used : List Provider)
      (le : Option AcquisitionFailure),
      ∀ a ∈ (runSources now fetch pid thr fb srcs acc used le).1,
        (hasAvailableQuota a.src = false ∧ ∃ acc0, a = deniedAttempt now pid a.src acc0) ∨
        (hasAvailableQuota a.src = true ∧
          ∃ d acc0, fetch a.src = .ok d ∧ a = okAttempt now pid a.src d acc0) ∨
        (hasAvailableQuota a.src = true ∧
          ∃ e acc0, fetch a.src = .failure e ∧ a = failedAttempt now pid a.src e acc0) := by
  intro srcs
  induction srcs with
  | nil => intro acc used le a ha; simp [runSources] at ha
  | cons source rest ih =>
    intro acc used le a ha
    simp only [runSources] at ha
    split at ha
    · rename_i hq
      split at ha
      · rename_i d hf
        split at ha
        · simp only [List.mem_singleton] at ha
          subst ha
          right; left
          exact ⟨by simpa [okAttempt] using hq, d, acc, hf, by simp [okAttempt]⟩
        · simp only [attemptCons_fst, List.mem_cons] at ha
          rcases ha with rfl | ha
          · right; left
            exact ⟨by simpa [okAttempt] using hq, d, acc, hf, by simp [okAttempt]⟩
          · exact ih _ _ _ a ha
      · rename_i e hf
        split at ha
        · simp only [attemptCons_fst, List.mem_cons] at ha
          rcases ha with rfl | ha
          · right; right
            exact ⟨by simpa [failedAttempt] using hq, e, acc, hf, by simp [failedAttempt]⟩
          · exact ih _ _ _ a ha
        · simp only [List.mem_singleton] at ha
          subst ha
          right; right
          exact ⟨by simpa [failedAttempt] using hq, e, acc, hf, by simp [failedAttempt]⟩
    · rename_i hq
      split at ha
      · simp only [attemptCons_fst, List.mem_cons] at ha
        rcases ha with rfl | ha
        · left
          exact ⟨by simpa [deniedAttempt] using hq, acc, by simp [deniedAttempt]⟩
        · exact ih _ _ _ a ha
      · simp only [List.mem_singleton] at ha
        subst ha
        left
        exact ⟨by simpa [deniedAttempt] using hq, acc, by simp [deniedAttempt]⟩

/-- The attempts of an executeWithFallback trace are those of its source
loop. -/
theorem executeWithFallback_attempts (now : ℤ) (fetch : DataSource → FetchOutcome)
    (persist : List DataRecord → PersistResult) (p : Pipeline) :
    (executeWithFallback now fetch persist p).attempts =
      (runSources now fetch p.id p.config.validation.qualityThreshold
        p.config.fallback.enableFallback (sortedActiveSources p.sources) [] [] none).1 := by
  simp only [executeWithFallback]
  split
  · rfl
  · split
    · split <;> rfl
    · rfl

/-- The loop visits the given source list front to back, so its attempts
are exactly the first attempts-many sources. -/
theorem runSources_take (now : ℤ) (fetch : DataSource → FetchOutcome)
    (pid : String) (thr : ℚ) (fb : Bool) :
    ∀ (srcs : List DataSource) (acc : List DataRecord) (used : List Provider)
      (le : Option AcquisitionFailure),
      (runSources now fetch pid thr fb srcs acc used le).1.map (·.src) =
        srcs.take (runSources now fetch pid thr fb srcs acc used le).1.length := by
  intro srcs
  induction srcs with
  | nil => intro acc used le; simp [runSources]
  | cons source rest ih =>
    intro acc used le
    simp only [runSources]
    split
    · split
      · split
        · simp [okAttempt]
        · simp only [attemptCons_fst, List.map_cons, List.length_cons, List.take_succ_cons,
            List.cons.injEq]
          exact ⟨by simp [okAttempt], ih _ _ _⟩
      · split
        · simp only [attemptCons_fst, List.map_cons, List.length_cons, List.take_succ_cons,
            List.cons.injEq]
          exact ⟨by simp [failedAttempt], ih _ _ _⟩
        · simp [failedAttempt]
    · split
      · simp only [attemptCons_fst, List.map_cons, List.length_cons, List.take_succ_cons,
          List.cons.injEq]
        exact ⟨by simp [deniedAttempt], ih _ _ _⟩
      · simp [deniedAttempt]

/-- Membership in the dropLast of a cons splits into the head or the
dropLast of the tail. -/
theorem mem_dropLast_cons {α : Type} {a x : α} {xs : List α}
    (h : a ∈ (x :: xs).dropLast) : a = x ∨ a ∈ xs.dropLast := by
  cases xs with
  | nil => simp at h
  | cons y ys =>
    rcases List.mem_cons.mp h with h1 | h2
    · exact Or.inl h1
    · exact Or.inr h2

/-- Every attempt of the loop except possibly the last one that succeeded
did not yet meet the quality threshold (otherwise the loop would have
broken there). -/
theorem runSources_stop (now : ℤ) (fetch : DataSource → FetchOutcome)
    (pid : String) (thr : ℚ) (fb : Bool) :
    ∀ (srcs : List DataSource) (acc : List DataRecord) (used : List Provider)
      (le : Option AcquisitionFailure),
      ∀ a ∈ (runSources now fetch pid thr fb srcs acc used le).1.dropLast,
        (∃ d, a.outcome = .fetchOk d) →
          hasMinimumQualityData now a.accAfter thr = false := by
  intro srcs
  induction srcs with
  | nil => intro acc used le a ha; simp [runSources] at ha
  | cons source rest ih =>
    intro acc used le a ha hd
    simp only [runSources] at ha
    split at ha
    · split at ha
      · split at ha
        · simp at ha
        · rename_i hmin
          rw [attemptCons_fst] at ha
          rcases (mem_dropLast_cons ha) with h1 | h2
          · subst h1
            simpa [okAttempt] using hmin
          · exact ih _ _ _ a h2 hd
      · split at ha
        · rw [attemptCons_fst] at ha
          rcases (mem_dropLast_cons ha) with h1 | h2
          · subst h1
            rcases hd with ⟨d, hd⟩
            simp [failedAttempt] at hd
          · exact ih _ _ _ a h2 hd
        · simp at ha
    · split at ha
      · rw [attemptCons_fst] at ha
        rcases (mem_dropLast_cons ha) with h1 | h2
        · subst h1
          rcases hd with ⟨d, hd⟩
          simp [deniedAttempt] at hd
        · exact ih _ _ _ a h2 hd
      · simp at ha

/-- Insertion preserves the members of the list, adding the new source. -/
theorem mem_insertByPriority {s x : DataSource} :
    ∀ {l : List DataSource}, x ∈ insertByPriority s l ↔ x = s ∨ x ∈ l := by
  intro l
  induction l with
  | nil => simp [insertByPriority]
  | cons t ts ih =>
    simp only [insertByPriority]
    split
    · simp
    · simp only [List.mem_cons, ih]
      tauto

/-- Insertion into a priority-sorted list keeps it sorted. -/
theorem sorted_insertByPriority (s : DataSource) :
    ∀ (l : List DataSource), List.Sorted (· ≤ ·) (l.map (·.priority)) →
      List.Sorted (· ≤ ·) ((insertByPriority s l).map (·.priority)) := by
  intro l
  induction l with
  | nil => intro _; simp [insertByPriority]
  | cons t ts ih =>
    intro h
    rw [List.map_cons, List.sorted_cons] at h
    simp only [insertByPriority]
    split
    · rename_i hlt
      rw [List.map_cons, List.sorted_cons]
      refine ⟨?_, by rw [List.map_cons, List.sorted_cons]; exact h⟩
      intro b hb
      rw [List.map_cons, List.mem_cons] at hb
      rcases hb with rfl | hb
      · exact le_of_lt hlt
      · exact le_trans (le_of_lt hlt) (h.1 b hb)
    · rename_i hge
      rw [List.map_cons, List.sorted_cons]
      refine ⟨?_, ih h.2⟩
      intro b hb
      rw [List.mem_map] at hb
      obtain ⟨y, hy, rfl⟩ := hb
      rcases mem_insertByPriority.mp hy with rfl | hy
      · exact le_of_not_lt hge
      · exact h.1 _ (List.mem_map_of_mem _ hy)

/-- The sort keeps exactly the members of its input. -/
theorem mem_sortByPriority {x : DataSource} :
    ∀ {l : List DataSource}, x ∈ sortByPriority l ↔ x ∈ l := by
  intro l
  induction l with
  | nil => simp [sortByPriority]
  | cons t ts ih =>
    simp only [sortByPriority, mem_insertByPriority, List.mem_cons, ih]

/-- The sort produces ascending priorities. -/
theorem sorted_sortByPriority :
    ∀ (l : List DataSource), List.Sorted (· ≤ ·) ((sortByPriority l).map (·.priority)) := by
  intro l
  induction l with
  | nil => simp [sortByPriority]
  | cons t ts ih => exact sorted_insertByPriority t _ ih

/-- Members of the active source list are active and come from the
pipeline's sources. -/
theorem mem_sortedActiveSources {x : DataSource} {sources : List DataSource} :
    x ∈ sortedActiveSources sources ↔ x ∈ sources ∧ x.isActive = true := by
  simp [sortedActiveSources, mem_sortByPriority, List.mem_filter]

/-- The first claim as the specification states it: only active sources are
attempted, in ascending priority order, and no further source is attempted
once the accumulated data's quality score meets the pipeline's threshold. -/
def ClaimC1Statement : Prop :=
  ∀ (now : ℤ) (fetch : DataSource → FetchOutcome) (persist : List DataRecord → PersistResult)
    (p : Pipeline),
    (∀ a ∈ (executeWithFallback now fetch persist p).attempts, a.src.isActive = true) ∧
    List.Sorted (· ≤ ·)
      ((executeWithFallback now fetch persist p).attempts.map (·.src.priority)) ∧
    ∀ a ∈ (executeWithFallback now fetch persist p).attempts.dropLast,
      (∃ d, a.outcome = .fetchOk d) →
        ¬(p.config.validation.qualityThreshold ≤
          (((calculateQualityMetrics now a.accAfter).overallScore : ℤ) : ℚ))

/-- Two active sample sources at priorities 1 and 2 with ample quota. -/
def sampleSource (prov : Provider) (prio : ℚ) : DataSource :=
  ⟨prov, prio, true, ⟨1000, 30000, 0, 0, 80⟩, ⟨100, 100, 0, 0, none, 0⟩,
    ⟨none, none, none, none⟩⟩

/-- Fresh metrics, as initializePipelines creates them. -/
def zeroMetrics : PipelineMetrics := ⟨0, 0, 0, 0, none, 0, 0, 0, 0⟩

/-- A sample pipeline over the given sources with the given quality
threshold and fallback flag. -/
def samplePipeline (sources : List DataSource) (threshold : ℚ) (fb : Bool) : Pipeline :=
  ⟨"addresses_pipeline", .addresses, .weekly, none, 0, sources, .idle,
    ⟨3, 30000, 500, ⟨threshold⟩, ⟨fb⟩⟩, zeroMetrics⟩

/-- A persistence oracle reporting nothing persisted. -/
def emptyPersist : List DataRecord → PersistResult := fun _ => ⟨0, 0⟩

/-- C1 counterexample: with quality threshold 0 and two active sources whose
acquisitions validate to empty batches, the empty data accumulated after the
first source already has quality score 0, meeting the threshold, yet the
loop still attempts the second source: hasMinimumQualityData refuses empty
data regardless of the threshold. -/
theorem quality_stop_counterexample : ¬ ClaimC1Statement := by
  intro h
  have hatts : (executeWithFallback 0 (fun _ => .ok []) emptyPersist
      (samplePipeline [sampleSource .URBIS 1, sampleSource .OSM 2] 0 true)).attempts =
      [okAttempt 0 "addresses_pipeline" (sampleSource .URBIS 1) [] [],
        okAttempt 0 "addresses_pipeline" (sampleSource .OSM 2) [] []] := by
    rw [executeWithFallback_attempts]
    norm_num [samplePipeline, sortedActiveSources, sortByPriority, insertByPriority,
      sampleSource, runSources, hasAvailableQuota, hasMinimumQualityData,
      List.filter]
  have hstop := (h 0 (fun _ => .ok []) emptyPersist
    (samplePipeline [sampleSource .URBIS 1, sampleSource .OSM 2] 0 true)).2.2
  rw [hatts] at hstop
  refine hstop (okAttempt 0 "addresses_pipeline" (sampleSource .URBIS 1) [] [])
    (by simp) ⟨[], rfl⟩ ?_
  simp [samplePipeline, okAttempt, calculateQualityMetrics]

/-- C1 (corrected): executeWithFallback attempts only active sources, in
ascending priority order (they are an initial segment of the active sources
sorted by priority, so an inactive source is never attempted), and it stops
attempting further sources as soon as the data accumulated so far is
non-empty and its quality score meets the pipeline's qualityThreshold — with
nothing accumulated the loop always proceeds to the next source, even when
the threshold is trivially met. -/
theorem executeWithFallback_priority_order (now : ℤ) (fetch : DataSource → FetchOutcome)
    (persist : List DataRecord → PersistResult) (p : Pipeline) :
    (executeWithFallback now fetch persist p).attempts.map (·.src) =
      (sortedActiveSources p.sources).take
        (executeWithFallback now fetch persist p).attempts.length ∧
    (∀ a ∈ (executeWithFallback now fetch persist p).attempts, a.src.isActive = true) ∧
    List.Sorted (· ≤ ·)
      ((executeWithFallback now fetch persist p).attempts.map (·.src.priority)) ∧
    ∀ a ∈ (executeWithFallback now fetch persist p).attempts.dropLast,
      (∃ d, a.outcome = .fetchOk d) →
        hasMinimumQualityData now a.accAfter p.config.validation.qualityThreshold = false := by
  have htake := runSources_take now fetch p.id p.config.validation.qualityThreshold
    p.config.fallback.enableFallback (sortedActiveSources p.sources) [] [] none
  rw [← executeWithFallback_attempts now fetch persist p] at htake
  refine ⟨htake, ?_, ?_, ?_⟩
  · intro a ha
    have hsrc : a.src ∈ (executeWithFallback now fetch persist p).attempts.map (·.src) :=
      List.mem_map_of_mem _ ha
    rw [htake] at hsrc
    exact (mem_sortedActiveSources.mp (List.take_subset _ _ hsrc)).2
  · have : (executeWithFallback now fetch persist p).attempts.map (·.src.priority) =
        ((executeWithFallback now fetch persist p).attempts.map (·.src)).map (·.priority) := by
      rw [List.map_map]; rfl
    rw [this, htake]
    exact List.Pairwise.sublist ((List.take_sublist _ _).map _) (sorted_sortByPriority _)
  · intro a ha hd
    rw [executeWithFallback_attempts] at ha
    exact runSources_stop now fetch p.id p.config.validation.qualityThreshold
      p.config.fallback.enableFallback (sortedActiveSources p.sources) [] [] none a ha hd

/-- C5: a source whose daily usage has reached its daily limit is denied
before acquisition — its attempt carries the QuotaExceededError, records a
source_failed event, never connects and performs no throttle wait — while a
source whose usage is at or above the warning-threshold share of the limit
but below the limit gets a quota_warning event and its acquisition
proceeds. -/
theorem executeWithFallback_quota_handling (now : ℤ) (fetch : DataSource → FetchOutcome)
    (persist : List DataRecord → PersistResult) (p : Pipeline) :
    ∀ a ∈ (executeWithFallback now fetch persist p).attempts,
      (a.src.quota.daily ≤ a.src.quota.current →
        a.outcome = .quotaDenied (.quotaExceeded a.src.provider a.src.quota.resetTime) ∧
        .sourceFailed p.id a.src.provider
          (.quotaExceeded a.src.provider a.src.quota.resetTime) ∈ a.events ∧
        (∀ pr, .sourceConnected p.id pr ∉ a.events) ∧
        (∀ w ∈ a.waits, w.isBackoff = true)) ∧
      (a.src.quota.current < a.src.quota.daily →
        a.src.quota.daily * (a.src.quota.warningThreshold / 100) ≤ a.src.quota.current →
        .quotaWarning a.src.provider a.src.quota.current a.src.quota.daily ∈ a.events ∧
        ∀ e, a.outcome ≠ .quotaDenied e) := by
  intro a ha
  rw [executeWithFallback_attempts] at ha
  rcases runSources_attempt_shape now fetch p.id p.config.validation.qualityThreshold
      p.config.fallback.enableFallback (sortedActiveSources p.sources) [] [] none a ha with
    ⟨hq, acc0, haeq⟩ | ⟨hq, d, acc0, hf, haeq⟩ | ⟨hq, e, acc0, hf, haeq⟩
  · simp only [hasAvailableQuota, decide_eq_false_iff_not, not_lt] at hq
    constructor
    · intro _
      rw [haeq]
      refine ⟨by simp [deniedAttempt], by simp [deniedAttempt], ?_,
        by simp [deniedAttempt, WaitEv.isBackoff]⟩
      intro pr
      simp [deniedAttempt]
    · intro hlt _
      exact absurd hq (not_le.mpr hlt)
  · simp only [hasAvailableQuota, decide_eq_true_eq] at hq
    constructor
    · intro hd
      exact absurd hd (not_le.mpr hq)
    · intro _ hw
      have hdue : quotaWarningDue a.src = true := by
        simp [quotaWarningDue, ge_iff_le, hw]
      rw [haeq]
      constructor
      · simp [okAttempt, warningEvents, hdue]
      · intro e
        simp [okAttempt]
  · simp only [hasAvailableQuota, decide_eq_true_eq] at hq
    constructor
    · intro hd
      exact absurd hd (not_le.mpr hq)
    · intro _ hw
      have hdue : quotaWarningDue a.src = true := by
        simp [quotaWarningDue, ge_iff_le, hw]
      rw [haeq]
      constructor
      · simp [failedAttempt, warningEvents, hdue]
      · intro e2
        simp [failedAttempt]

/-- A source whose daily quota usage has reached the daily limit. -/
def exhaustedSource : DataSource :=
  ⟨.URBIS, 1, true, ⟨1000, 30000, 1000, 0, 80⟩, ⟨100, 100, 0, 0, none, 0⟩,
    ⟨none, none, none, none⟩⟩

/-- C5 witness: the quota theorem applied to the single attempt of a
pipeline whose sole active source is at its daily limit. -/
theorem executeWithFallback_quota_handling_witness :
    ((deniedAttempt 0 "addresses_pipeline" exhaustedSource []).src.quota.daily ≤
        (deniedAttempt 0 "addresses_pipeline" exhaustedSource []).src.quota.current →
      (deniedAttempt 0 "addresses_pipeline" exhaustedSource []).outcome =
        .quotaDenied (.quotaExceeded
          (deniedAttempt 0 "addresses_pipeline" exhaustedSource []).src.provider
          (deniedAttempt 0 "addresses_pipeline" exhaustedSource []).src.quota.resetTime) ∧
      .sourceFailed (samplePipeline [exhaustedSource] 0 true).id
          (deniedAttempt 0 "addresses_pipeline" exhaustedSource []).src.provider
          (.quotaExceeded
            (deniedAttempt 0 "addresses_pipeline" exhaustedSource []).src.provider
            (deniedAttempt 0 "addresses_pipeline" exhaustedSource []).src.quota.resetTime) ∈
        (deniedAttempt 0 "addresses_pipeline" exhaustedSource []).events ∧
      (∀ pr, .sourceConnected (samplePipeline [exhaustedSource] 0 true).id pr ∉
        (deniedAttempt 0 "addresses_pipeline" exhaustedSource []).events) ∧
      (∀ w ∈ (deniedAttempt 0 "addresses_pipeline" exhaustedSource []).waits,
        w.isBackoff = true)) ∧
    ((deniedAttempt 0 "addresses_pipeline" exhaustedSource []).src.quota.current <
        (deniedAttempt 0 "addresses_pipeline" exhaustedSource []).src.quota.daily →
      (deniedAttempt 0 "addresses_pipeline" exhaustedSource []).src.quota.daily *
          ((deniedAttempt 0 "addresses_pipeline" exhaustedSource []).src.quota.warningThreshold
            / 100) ≤
        (deniedAttempt 0 "addresses_pipeline" exhaustedSource []).src.quota.current →
      .quotaWarning (deniedAttempt 0 "addresses_pipeline" exhaustedSource []).src.provider
          (deniedAttempt 0 "addresses_pipeline" exhaustedSource []).src.quota.current
          (deniedAttempt 0 "addresses_pipeline" exhaustedSource []).src.quota.daily ∈
        (deniedAttempt 0 "addresses_pipeline" exhaustedSource []).events ∧
      ∀ e, (deniedAttempt 0 "addresses_pipeline" exhaustedSource []).outcome ≠
        .quotaDenied e) :=
  executeWithFallback_quota_handling 0 (fun _ => .ok []) emptyPersist
    (samplePipeline [exhaustedSource] 0 true)
    (deniedAttempt 0 "addresses_pipeline" exhaustedSource [])
    (by
      rw [executeWithFallback_attempts]
      norm_num [samplePipeline, sortedActiveSources, sortByPriority, insertByPriority,
        exhaustedSource, runSources, hasAvailableQuota, List.filter, deniedAttempt])

/-- The running lastError variable of the fallback loop, recovered from the
attempt trace: the failure of the latest failed attempt, if any, else the
starting value. -/
def lastFailureOr (le : Option AcquisitionFailure) (atts : List SourceAttempt) :
    Option AcquisitionFailure :=
  atts.foldl (fun d a => match failureOf a.outcome with | some e => some e | none => d) le

@[simp]
theorem lastFailureOr_nil (le : Option AcquisitionFailure) : lastFailureOr le [] = le := rfl

@[simp]
theorem lastFailureOr_cons (le : Option AcquisitionFailure) (a : SourceAttempt)
    (atts : List SourceAttempt) :
    lastFailureOr le (a :: atts) =
      lastFailureOr (match failureOf a.outcome with | some e => some e | none => le) atts := rfl

/-- Destructuring an attemptCons equation. -/
theorem attemptCons_eq {a : SourceAttempt} {r : List SourceAttempt × LoopExit}
    {atts : List SourceAttempt} {ex : LoopExit} (h : attemptCons a r = (atts, ex)) :
    atts = a :: r.1 ∧ ex = r.2 := by
  cases r with
  | mk x y =>
    exact ⟨(congrArg Prod.fst h).symm, (congrArg Prod.snd h).symm⟩

/-- An exit by throw means fallback was disabled and the thrown error is the
loop's lastError after the recorded attempts. -/
theorem runSources_thrown (now : ℤ) (fetch : DataSource → FetchOutcome) (pid : String)
    (thr : ℚ) (fb : Bool) :
    ∀ (srcs : List DataSource) (acc : List DataRecord) (used : List Provider)
      (le : Option AcquisitionFailure) (atts : List SourceAttempt) (e : AcquisitionFailure),
      runSources now fetch pid thr fb srcs acc used le = (atts, .thrown e) →
      lastFailureOr le atts = some e ∧ fb = false := by
  intro srcs
  induction srcs with
  | nil => intro acc used le atts e h; simp [runSources] at h
  | cons source rest ih =>
    intro acc used le atts e h
    simp only [runSources] at h
    split at h
    · split at h
      · rename_i d hf
        split at h
        · simp at h
        · obtain ⟨h1, h2⟩ := attemptCons_eq h
          subst h1
          have hr : runSources now fetch pid thr fb rest (acc ++ d)
              (used ++ [source.provider]) le =
              ((runSources now fetch pid thr fb rest (acc ++ d)
                (used ++ [source.provider]) le).1, .thrown e) := by rw [h2]
          obtain ⟨hl, hfb⟩ := ih _ _ _ _ e hr
          refine ⟨?_, hfb⟩
          rw [lastFailureOr_cons]
          simpa [okAttempt, failureOf] using hl
      · rename_i e0 hf
        split at h
        · obtain ⟨h1, h2⟩ := attemptCons_eq h
          subst h1
          have hr : runSources now fetch pid thr fb rest acc used (some e0) =
              ((runSources now fetch pid thr fb rest acc used (some e0)).1, .thrown e) := by
            rw [h2]
          obtain ⟨hl, hfb⟩ := ih _ _ _ _ e hr
          refine ⟨?_, hfb⟩
          rw [lastFailureOr_cons]
          simpa [failedAttempt, failureOf] using hl
        · rename_i hfb
          have h1 := (congrArg Prod.fst h).symm
          have h2 := (congrArg Prod.snd h).symm
          subst h1
          cases h2
          refine ⟨by simp [failedAttempt, failureOf, lastFailureOr], by simpa using hfb⟩
    · split at h
      · obtain ⟨h1, h2⟩ := attemptCons_eq h
        subst h1
        have hr : runSources now fetch pid thr fb rest acc used
            (some (AcquisitionFailure.quotaExceeded source.provider source.quota.resetTime)) =
            ((runSources now fetch pid thr fb rest acc used
              (some (AcquisitionFailure.quotaExceeded source.provider
                source.quota.resetTime))).1, .thrown e) := by
          rw [h2]
        obtain ⟨hl, hfb⟩ := ih _ _ _ _ e hr
        refine ⟨?_, hfb⟩
        rw [lastFailureOr_cons]
        simpa [deniedAttempt, failureOf] using hl
      · rename_i hfb
        have h1 := (congrArg Prod.fst h).symm
        have h2 := (congrArg Prod.snd h).symm
        subst h1
        cases h2
        refine ⟨by simp [deniedAttempt, failureOf, lastFailureOr], by simpa using hfb⟩

/-- A finished exit carries as lastError the loop's running lastError over
the attempts; and if every attempt failed, the combined data is unchanged. -/
theorem runSources_finished (now : ℤ) (fetch : DataSource → FetchOutcome) (pid : String)
    (thr : ℚ) (fb : Bool) :
    ∀ (srcs : List DataSource) (acc : List DataRecord) (used : List Provider)
      (le : Option AcquisitionFailure) (atts : List SourceAttempt) (acc2 : List DataRecord)
      (used2 : List Provider) (le2 : Option AcquisitionFailure),
      runSources now fetch pid thr fb srcs acc used le = (atts, .finished acc2 used2 le2) →
      le2 = lastFailureOr le atts ∧
      ((∀ a ∈ atts, (failureOf a.outcome).isSome = true) → acc2 = acc) := by
  intro srcs
  induction srcs with
  | nil =>
    intro acc used le atts acc2 used2 le2 h
    simp only [runSources] at h
    have h1 := (congrArg Prod.fst h).symm
    have h2 := (congrArg Prod.snd h).symm
    subst h1
    cases h2
    exact ⟨rfl, fun _ => rfl⟩
  | cons source rest ih =>
    intro acc used le atts acc2 used2 le2 h
    simp only [runSources] at h
    split at h
    · split at h
      · rename_i d hf
        split at h
        · have h1 := (congrArg Prod.fst h).symm
          have h2 := (congrArg Prod.snd h).symm
          subst h1
          cases h2
          refine ⟨by simp [okAttempt, failureOf, lastFailureOr], ?_⟩
          intro hall
          have := hall _ (List.mem_singleton_self _)
          simp [okAttempt, failureOf] at this
        · obtain ⟨h1, h2⟩ := attemptCons_eq h
          subst h1
          have hr : runSources now fetch pid thr fb rest (acc ++ d)
              (used ++ [source.provider]) le =
              ((runSources now fetch pid thr fb rest (acc ++ d)
                (used ++ [source.provider]) le).1, .finished acc2 used2 le2) := by rw [h2]
          obtain ⟨hl, hacc⟩ := ih _ _ _ _ _ _ _ hr
          constructor
          · rw [lastFailureOr_cons]
            simpa [okAttempt, failureOf] using hl
          · intro hall
            have hok := hall _ (List.mem_cons_self _ _)
            simp [okAttempt, failureOf] at hok
      · rename_i e0 hf
        split at h
        · obtain ⟨h1, h2⟩ := attemptCons_eq h
          subst h1
          have hr : runSources now fetch pid thr fb rest acc used (some e0) =
              ((runSources now fetch pid thr fb rest acc used (some e0)).1,
                .finished acc2 used2 le2) := by rw [h2]
          obtain ⟨hl, hacc⟩ := ih _ _ _ _ _ _ _ hr
          constructor
          · rw [lastFailureOr_cons]
            simpa [failedAttempt, failureOf] using hl
          · intro hall
            exact hacc (fun a ha => hall a (List.mem_cons_of_mem _ ha))
        · simp at h
    · split at h
      · obtain ⟨h1, h2⟩ := attemptCons_eq h
        subst h1
        have hr : runSources now fetch pid thr fb rest acc used
            (some (AcquisitionFailure.quotaExceeded source.provider source.quota.resetTime)) =
            ((runSources now fetch pid thr fb rest acc used
              (some (AcquisitionFailure.quotaExceeded source.provider
                source.quota.resetTime))).1, .finished acc2 used2 le2) := by
          rw [h2]
        obtain ⟨hl, hacc⟩ := ih _ _ _ _ _ _ _ hr
        constructor
        · rw [lastFailureOr_cons]
          simpa [deniedAttempt, failureOf] using hl
        · intro hall
          exact hacc (fun a ha => hall a (List.mem_cons_of_mem _ ha))
      · simp at h

/-- A some lastError is never forgotten by later attempts. -/
theorem lastFailureOr_isSome (atts : List SourceAttempt) :
    ∀ (le : Option AcquisitionFailure), le.isSome = true →
      (lastFailureOr le atts).isSome = true := by
  induction atts with
  | nil => intro le h; simpa using h
  | cons a rest ih =>
    intro le h
    rw [lastFailureOr_cons]
    match hfa : failureOf a.outcome with
    | some e => exact ih _ rfl
    | none => exact ih _ h

/-- If some attempt failed, the loop's lastError after the trace is set. -/
theorem lastFailureOr_isSome_of_failure (atts : List SourceAttempt) :
    ∀ (le : Option AcquisitionFailure) (a : SourceAttempt), a ∈ atts →
      (failureOf a.outcome).isSome = true → (lastFailureOr le atts).isSome = true := by
  induction atts with
  | nil => intro le a ha; cases ha
  | cons b rest ih =>
    intro le a ha hfail
    rw [lastFailureOr_cons]
    rcases List.mem_cons.mp ha with rfl | ha
    · match hfa : failureOf a.outcome with
      | some e => exact lastFailureOr_isSome rest _ rfl
      | none => rw [hfa] at hfail; simp at hfail
    · match hfb : failureOf b.outcome with
      | some e => exact lastFailureOr_isSome rest _ rfl
      | none => exact ih _ a ha hfail

/-- With fallback disabled, only the final attempt can be a failure, and a
failing final attempt makes the loop exit by throwing that failure. -/
theorem runSources_noFallback (now : ℤ) (fetch : DataSource → FetchOutcome) (pid : String)
    (thr : ℚ) :
    ∀ (srcs : List DataSource) (acc : List DataRecord) (used : List Provider)
      (le : Option AcquisitionFailure) (atts : List SourceAttempt) (ex : LoopExit),
      runSources now fetch pid thr false srcs acc used le = (atts, ex) →
      (∀ a ∈ atts.dropLast, failureOf a.outcome = none) ∧
      (∀ a e, atts.getLast? = some a → failureOf a.outcome = some e → ex = .thrown e) := by
  intro srcs
  induction srcs with
  | nil =>
    intro acc used le atts ex h
    simp only [runSources] at h
    have h1 := (congrArg Prod.fst h).symm
    have h2 := (congrArg Prod.snd h).symm
    subst h1
    cases h2
    exact ⟨by simp, by simp⟩
  | cons source rest ih =>
    intro acc used le atts ex h
    simp only [runSources] at h
    split at h
    · split at h
      · rename_i d hf
        split at h
        · have h1 := (congrArg Prod.fst h).symm
          have h2 := (congrArg Prod.snd h).symm
          subst h1
          cases h2
          refine ⟨by simp, ?_⟩
          intro a e hlast hfa
          rw [List.getLast?_singleton] at hlast
          cases hlast
          simp [okAttempt, failureOf] at hfa
        · obtain ⟨h1, h2⟩ := attemptCons_eq h
          subst h1
          have hr : runSources now fetch pid thr false rest (acc ++ d)
              (used ++ [source.provider]) le =
              ((runSources now fetch pid thr false rest (acc ++ d)
                (used ++ [source.provider]) le).1,
                (runSources now fetch pid thr false rest (acc ++ d)
                  (used ++ [source.provider]) le).2) := rfl
          obtain ⟨ihd, ihl⟩ := ih _ _ _ _ _ hr
          constructor
          · intro a ha
            rcases mem_dropLast_cons ha with rfl | ha
            · simp [okAttempt, failureOf]
            · exact ihd a ha
          · intro a e hlast hfa
            rw [h2]
            cases hatts2 : (runSources now fetch pid thr false rest (acc ++ d)
                (used ++ [source.provider]) le).1 with
            | nil =>
              rw [hatts2, List.getLast?_singleton] at hlast
              cases hlast
              simp [okAttempt, failureOf] at hfa
            | cons b bs =>
              rw [hatts2, List.getLast?_cons_cons] at hlast
              rw [← hatts2] at hlast
              exact ihl a e hlast hfa
      · rename_i e0 hf
        split at h
        · rename_i hfb
          simp at hfb
        · have h1 := (congrArg Prod.fst h).symm
          have h2 := (congrArg Prod.snd h).symm
          subst h1
          cases h2
          refine ⟨by simp, ?_⟩
          intro a e hlast hfa
          rw [List.getLast?_singleton] at hlast
          cases hlast
          simp only [failedAttempt, failureOf] at hfa
          cases hfa
          rfl
    · split at h
      · rename_i hfb
        simp at hfb
      · have h1 := (congrArg Prod.fst h).symm
        have h2 := (congrArg Prod.snd h).symm
        subst h1
        cases h2
        refine ⟨by simp, ?_⟩
        intro a e hlast hfa
        rw [List.getLast?_singleton] at hlast
        cases hlast
        simp only [deniedAttempt, failureOf] at hfa
        cases hfa
        rfl

/-- A thrown loop exit becomes the thrown error of executeWithFallback. -/
theorem executeWithFallback_result_thrown (now : ℤ) (fetch : DataSource → FetchOutcome)
    (persist : List DataRecord → PersistResult) (p : Pipeline) (e : AcquisitionFailure)
    (h : (runSources now fetch p.id p.config.validation.qualityThreshold
        p.config.fallback.enableFallback (sortedActiveSources p.sources) [] [] none).2 =
      .thrown e) :
    (executeWithFallback now fetch persist p).result = .error e := by
  simp only [executeWithFallback]
  split
  · rename_i e2 heq
    rw [h] at heq
    cases heq
    rfl
  · rename_i acc used le heq
    rw [h] at heq
    cases heq

/-- A finished loop exit with nothing collected and a recorded last error
becomes a rethrow of that error. -/
theorem executeWithFallback_result_emptyfail (now : ℤ) (fetch : DataSource → FetchOutcome)
    (persist : List DataRecord → PersistResult) (p : Pipeline) (used : List Provider)
    (e : AcquisitionFailure)
    (h : (runSources now fetch p.id p.config.validation.qualityThreshold
        p.config.fallback.enableFallback (sortedActiveSources p.sources) [] [] none).2 =
      .finished [] used (some e)) :
    (executeWithFallback now fetch persist p).result = .error e := by
  simp only [executeWithFallback]
  split
  · rename_i e2 heq
    rw [h] at heq
    cases heq
  · rename_i acc used2 le2 heq
    rw [h] at heq
    cases heq
    simp

/-- C2 (corrected): when acquisition from a source fails inside
executeWithFallback, the failure is recorded against that source's
reliability and source_failed is emitted, and the catch block waits the
source's configured timeout (5000 ms when unset) only when the failure is a
QuotaExceededError — a non-quota failure waits nothing; with fallback
disabled no source is attempted after a failure and a failing final attempt
makes executeWithFallback rethrow that error; and if every attempted source
failed with nothing collected, the last recorded error is rethrown. -/
theorem executeWithFallback_failure_handling (now : ℤ) (fetch : DataSource → FetchOutcome)
    (persist : List DataRecord → PersistResult) (p : Pipeline) :
    (∀ a ∈ (executeWithFallback now fetch persist p).attempts,
      ∀ e, failureOf a.outcome = some e →
        a.srcAfter = updateSourceReliability now a.src false ∧
        .sourceFailed p.id a.src.provider e ∈ a.events ∧
        (e.isQuotaExceeded = true → .backoff (backoffDelay a.src) ∈ a.waits) ∧
        (e.isQuotaExceeded = false → ∀ w ∈ a.waits, w.isBackoff = false)) ∧
    (p.config.fallback.enableFallback = false →
      (∀ a ∈ (executeWithFallback now fetch persist p).attempts.dropLast,
        failureOf a.outcome = none) ∧
      (∀ a e, (executeWithFallback now fetch persist p).attempts.getLast? = some a →
        failureOf a.outcome = some e →
        (executeWithFallback now fetch persist p).result = .error e)) ∧
    ((∀ a ∈ (executeWithFallback now fetch persist p).attempts,
        (failureOf a.outcome).isSome = true) →
      (executeWithFallback now fetch persist p).attempts ≠ [] →
      ∃ e, lastFailureOr none (executeWithFallback now fetch persist p).attempts = some e ∧
        (executeWithFallback now fetch persist p).result = .error e) := by
  have hatts := executeWithFallback_attempts now fetch persist p
  refine ⟨?_, ?_, ?_⟩
  · intro a ha e hfe
    rw [hatts] at ha
    rcases runSources_attempt_shape now fetch p.id p.config.validation.qualityThreshold
        p.config.fallback.enableFallback (sortedActiveSources p.sources) [] [] none a ha with
      ⟨hq, acc0, haeq⟩ | ⟨hq, d, acc0, hf, haeq⟩ | ⟨hq, e0, acc0, hf, haeq⟩
    · rw [haeq] at hfe
      simp only [deniedAttempt, failureOf] at hfe
      cases hfe
      rw [haeq]
      refine ⟨by simp [deniedAttempt], by simp [deniedAttempt], ?_, ?_⟩
      · intro _
        simp [deniedAttempt]
      · intro hnq
        simp [AcquisitionFailure.isQuotaExceeded] at hnq
    · rw [haeq] at hfe
      simp [okAttempt, failureOf] at hfe
    · rw [haeq] at hfe
      simp only [failedAttempt, failureOf] at hfe
      cases hfe
      rw [haeq]
      refine ⟨by simp [failedAttempt], by simp [failedAttempt], ?_, ?_⟩
      · intro hq2
        simp [failedAttempt, hq2]
      · intro hnq
        simp [failedAttempt, hnq, WaitEv.isBackoff]
  · intro hfb
    obtain ⟨ihd, ihl⟩ := runSources_noFallback now fetch p.id
      p.config.validation.qualityThreshold (sortedActiveSources p.sources) [] [] none
      (runSources now fetch p.id p.config.validation.qualityThreshold
        p.config.fallback.enableFallback (sortedActiveSources p.sources) [] [] none).1
      (runSources now fetch p.id p.config.validation.qualityThreshold
        p.config.fallback.enableFallback (sortedActiveSources p.sources) [] [] none).2
      (by rw [← hfb])
    constructor
    · intro a ha
      rw [hatts] at ha
      exact ihd a ha
    · intro a e hlast hfa
      rw [hatts] at hlast
      exact executeWithFallback_result_thrown now fetch persist p e (ihl a e hlast hfa)
  · intro hall hne
    rw [hatts] at hall hne
    cases hex : (runSources now fetch p.id p.config.validation.qualityThreshold
        p.config.fallback.enableFallback (sortedActiveSources p.sources) [] [] none).2 with
    | thrown e =>
      obtain ⟨hl, _⟩ := runSources_thrown now fetch p.id
        p.config.validation.qualityThreshold p.config.fallback.enableFallback
        (sortedActiveSources p.sources) [] [] none _ e (by rw [← hex])
      exact ⟨e, by rw [hatts]; exact hl,
        executeWithFallback_result_thrown now fetch persist p e hex⟩
    | finished acc2 used2 le2 =>
      obtain ⟨hl, hacc⟩ := runSources_finished now fetch p.id
        p.config.validation.qualityThreshold p.config.fallback.enableFallback
        (sortedActiveSources p.sources) [] [] none _ acc2 used2 le2 (by rw [← hex])
      have hacc2 : acc2 = [] := hacc hall
      obtain ⟨a0, ha0⟩ := List.exists_mem_of_ne_nil _ hne
      have hsome : (lastFailureOr none (runSources now fetch p.id
          p.config.validation.qualityThreshold p.config.fallback.enableFallback
          (sortedActiveSources p.sources) [] [] none).1).isSome = true :=
        lastFailureOr_isSome_of_failure _ none a0 ha0 (hall a0 ha0)
      rw [← hl] at hsome
      obtain ⟨e, he⟩ := Option.isSome_iff_exists.mp hsome
      refine ⟨e, by rw [hatts, ← hl]; exact he, ?_⟩
      exact executeWithFallback_result_emptyfail now fetch persist p used2 e
        (by rw [hex, hacc2, he])

/-- The second claim as the specification states it: every failure is
recorded and reported, and — with fallback enabled — the service always
waits the source's configured timeout before continuing to the next
source. -/
def ClaimC2Statement : Prop :=
  ∀ (now : ℤ) (fetch : DataSource → FetchOutcome) (persist : List DataRecord → PersistResult)
    (p : Pipeline),
    ∀ a ∈ (executeWithFallback now fetch persist p).attempts,
      ∀ e, failureOf a.outcome = some e →
        a.srcAfter = updateSourceReliability now a.src false ∧
        .sourceFailed p.id a.src.provider e ∈ a.events ∧
        (p.config.fallback.enableFallback = true → .backoff (backoffDelay a.src) ∈ a.waits)

/-- C2 counterexample: a single active source failing with a plain (non
quota) acquisition error under enabled fallback performs no back-pressure
wait at all — the catch block delays only for QuotaExceededError — so the
claimed unconditional timeout wait is absent from the trace. -/
theorem fallback_delay_counterexample : ¬ ClaimC2Statement := by
  intro h
  have hatts : (executeWithFallback 0 (fun _ => .failure (.acquisitionError .URBIS "HTTP_ERROR"))
      emptyPersist (samplePipeline [sampleSource .URBIS 1] 0 true)).attempts =
      [failedAttempt 0 "addresses_pipeline" (sampleSource .URBIS 1)
        (.acquisitionError .URBIS "HTTP_ERROR") []] := by
    rw [executeWithFallback_attempts]
    norm_num [samplePipeline, sortedActiveSources, sortByPriority, insertByPriority,
      sampleSource, runSources, hasAvailableQuota, List.filter]
  have h2 := h 0 (fun _ => .failure (.acquisitionError .URBIS "HTTP_ERROR"))
    emptyPersist (samplePipeline [sampleSource .URBIS 1] 0 true)
    (failedAttempt 0 "addresses_pipeline" (sampleSource .URBIS 1)
      (.acquisitionError .URBIS "HTTP_ERROR") [])
    (by rw [hatts]; simp)
    (.acquisitionError .URBIS "HTTP_ERROR")
    (by simp [failedAttempt, failureOf])
  have h3 := h2.2.2 rfl
  simp [failedAttempt, AcquisitionFailure.isQuotaExceeded, sampleSource, samplePipeline,
    backoffDelay, throttleDelay, jsOrNum] at h3

/-- The reachable-state invariant of the timer bookkeeping: the timers map
never holds two entries for one pipeline id, and every allocated timer
handle is either cancelled or still in the map. -/
def TimerInv (st : TimerState) : Prop :=
  (st.timers.map Prod.fst).Nodup ∧
  ∀ t : ℕ, t < st.nextTimerId → t ∈ st.cancelled ∨ t ∈ st.timers.map Prod.snd

/-- Map.set never changes the key list when the key is present, and appends
the key otherwise. -/
theorem mapSet_keys {α : Type} (l : List (String × α)) (k : String) (v : α) :
    (mapSet l k v).map Prod.fst =
      if l.any (fun e => e.1 == k) then l.map Prod.fst else l.map Prod.fst ++ [k] := by
  unfold mapSet
  split
  · rw [List.map_map]
    refine List.map_congr_left ?_
    intro e _
    by_cases he : e.1 = k
    · simp [he]
    · simp [he]
  · simp

/-- The fresh value is always among the values after a Map.set. -/
theorem mapSet_new_value_mem {α : Type} (l : List (String × α)) (k : String) (v : α) :
    v ∈ (mapSet l k v).map Prod.snd := by
  unfold mapSet
  split
  · rename_i hany
    obtain ⟨e, he, hek⟩ := List.any_eq_true.mp hany
    rw [List.mem_map]
    refine ⟨(k, v), ?_, rfl⟩
    rw [List.mem_map]
    exact ⟨e, he, by simp [hek]⟩
  · simp

/-- An old value survives a Map.set under a different key. -/
theorem mapSet_old_value_mem {α : Type} {l : List (String × α)} {k2 : String} {t : α}
    (k : String) (v : α) (hmem : (k2, t) ∈ l) (hne : k2 ≠ k) :
    t ∈ (mapSet l k v).map Prod.snd := by
  unfold mapSet
  split
  · rw [List.mem_map]
    refine ⟨(k2, t), ?_, rfl⟩
    rw [List.mem_map]
    exact ⟨(k2, t), hmem, by simp [hne]⟩
  · rw [List.map_append, List.mem_append]
    exact Or.inl (List.mem_map_of_mem _ hmem)

/-- With distinct keys, a stored entry is what lookup finds. -/
theorem lookup_of_mem_nodup {α : Type} :
    ∀ {l : List (String × α)} {k : String} {t : α},
      (l.map Prod.fst).Nodup → (k, t) ∈ l → l.lookup k = some t := by
  intro l
  induction l with
  | nil => intro k t _ hm; cases hm
  | cons e rest ih =>
    intro k t hnd hm
    obtain ⟨k0, v0⟩ := e
    rw [List.map_cons, List.nodup_cons] at hnd
    rcases List.mem_cons.mp hm with heq | hm2
    · cases heq
      simp [List.lookup]
    · have hk : k ≠ k0 := fun hkk =>
        hnd.1 (by simpa [hkk] using List.mem_map_of_mem Prod.fst hm2)
      simp only [List.lookup]
      rw [beq_eq_false_iff_ne.mpr hk]
      exact ih hnd.2 hm2

/-- schedulePipeline preserves the timer invariant. -/
theorem timerInv_schedule (st : TimerState) (pid : String) (h : TimerInv st) :
    TimerInv (schedulePipelineTimer st pid) := by
  obtain ⟨hnd, halloc⟩ := h
  constructor
  · simp only [schedulePipelineTimer, mapSet_keys]
    split
    · exact hnd
    · rename_i hany
      rw [List.any_eq_true] at hany
      push_neg at hany
      rw [List.nodup_append]
      refine ⟨hnd, by simp, ?_⟩
      intro x hx
      simp only [List.mem_singleton]
      intro hxk
      subst hxk
      obtain ⟨e, he, rfl⟩ := List.mem_map.mp hx
      exact absurd (by simp) (hany e he)
  · intro t ht
    simp only [schedulePipelineTimer] at ht ⊢
    rcases Nat.lt_succ_iff_lt_or_eq.mp ht with ht2 | rfl
    · rcases halloc t ht2 with hc | hv
      · left
        split <;> simp [hc]
      · obtain ⟨⟨k2, t⟩, hmem, rfl⟩ := List.mem_map.mp hv
        by_cases hk : k2 = pid
        · subst hk
          left
          rw [lookup_of_mem_nodup hnd hmem]
          simp
        · right
          exact mapSet_old_value_mem pid st.nextTimerId hmem hk
    · right
      exact mapSet_new_value_mem st.timers pid st.nextTimerId

/-- stop preserves the timer invariant. -/
theorem timerInv_stop (st : TimerState) (h : TimerInv st) : TimerInv (stopScheduler st) := by
  obtain ⟨hnd, halloc⟩ := h
  refine ⟨by simp [stopScheduler], ?_⟩
  intro t ht
  left
  simp only [stopScheduler, List.mem_append]
  exact halloc t ht

/-- Every state reachable from startup by scheduler operations satisfies the
timer invariant. -/
theorem timerInv_runOps (ops : List SchedulerOp) : TimerInv (runSchedulerOps ops) := by
  suffices h : ∀ st, TimerInv st → TimerInv (ops.foldl applySchedulerOp st) by
    exact h initialTimerState ⟨by simp [initialTimerState], by simp [initialTimerState]⟩
  induction ops with
  | nil => intro st h; exact h
  | cons op rest ih =>
    intro st h
    rw [List.foldl_cons]
    refine ih _ ?_
    cases op with
    | schedulePipeline pid => exact timerInv_schedule st pid h
    | stop => exact timerInv_stop st h

/-- C8: over any sequence of scheduler operations, the timers map never
holds two entries for the same pipeline id; schedulePipeline always cancels
the prior timer of that id before setting a new one; and after stop() the
map is empty and every handle ever allocated has been cancelled, so no
previously scheduled execution can fire. -/
theorem scheduler_timer_safety (ops : List SchedulerOp) (pid : String) :
    ((runSchedulerOps ops).timers.map Prod.fst).Nodup ∧
    (∀ t, (runSchedulerOps ops).timers.lookup pid = some t →
      t ∈ (schedulePipelineTimer (runSchedulerOps ops) pid).cancelled) ∧
    (stopScheduler (runSchedulerOps ops)).timers = [] ∧
    ∀ t, t < (stopScheduler (runSchedulerOps ops)).nextTimerId →
      t ∈ (stopScheduler (runSchedulerOps ops)).cancelled := by
  obtain ⟨hnd, halloc⟩ := timerInv_runOps ops
  refine ⟨hnd, ?_, rfl, ?_⟩
  · intro t hl
    simp only [schedulePipelineTimer, hl]
    simp
  · intro t ht
    simp only [stopScheduler] at ht ⊢
    rw [List.mem_append]
    exact halloc t ht

/-- Whether an event is pipeline_started. -/
def isStartedEv : DataUpdateEv → Bool
  | .pipelineStarted _ => true
  | _ => false

/-- No event emitted inside the fallback loop or its persistence step is a
pipeline_started event: that event is emitted once, by executePipeline. -/
theorem executeWithFallback_no_started (now : ℤ) (fetch : DataSource → FetchOutcome)
    (persist : List DataRecord → PersistResult) (p : Pipeline) :
    ∀ ev ∈ (executeWithFallback now fetch persist p).events, isStartedEv ev = false := by
  have hatts : ∀ ev ∈ ((runSources now fetch p.id p.config.validation.qualityThreshold
      p.config.fallback.enableFallback
      (sortedActiveSources p.sources) [] [] none).1.map (·.events)).flatten,
      isStartedEv ev = false := by
    intro ev hev
    rw [List.mem_flatten] at hev
    obtain ⟨l, hl, hevl⟩ := hev
    obtain ⟨a, ha, rfl⟩ := List.mem_map.mp hl
    rcases runSources_attempt_shape now fetch p.id p.config.validation.qualityThreshold
        p.config.fallback.enableFallback (sortedActiveSources p.sources) [] [] none a ha with
      ⟨_, acc0, haeq⟩ | ⟨_, d, acc0, _, haeq⟩ | ⟨_, e0, acc0, _, haeq⟩
    · rw [haeq] at hevl
      simp only [deniedAttempt, List.mem_singleton] at hevl
      subst hevl
      rfl
    · rw [haeq] at hevl
      simp only [okAttempt, warningEvents] at hevl
      split at hevl <;>
        simp only [List.mem_append, List.mem_singleton, List.not_mem_nil, false_or] at hevl
      · rcases hevl with rfl | rfl <;> rfl
      · subst hevl
        rfl
    · rw [haeq] at hevl
      simp only [failedAttempt, warningEvents] at hevl
      split at hevl <;>
        simp only [List.mem_append, List.mem_cons, List.mem_singleton, List.not_mem_nil,
          false_or, or_false] at hevl
      · rcases hevl with rfl | rfl | rfl <;> rfl
      · rcases hevl with rfl | rfl <;> rfl
  intro ev hev
  simp only [executeWithFallback] at hev
  split at hev
  · exact hatts ev hev
  · split at hev
    · split at hev
      · exact hatts ev hev
      · rw [List.mem_append] at hev
        rcases hev with hev | hev
        · exact hatts ev hev
        · rw [List.mem_singleton] at hev
          subst hev
          rfl
    · rw [List.mem_append] at hev
      rcases hev with hev | hev
      · exact hatts ev hev
      · rw [List.mem_singleton] at hev
        subst hev
        rfl

/-- Replacing an existing key's entry makes lookup find the new value. -/
theorem lookup_map_replace {α : Type} :
    ∀ (l : List (String × α)) (k : String) (v : α), l.any (fun e => e.1 == k) = true →
      (l.map (fun e => if e.1 == k then (k, v) else e)).lookup k = some v := by
  intro l k v
  induction l with
  | nil => intro h; simp at h
  | cons e es ih =>
    intro hany
    rw [List.map_cons]
    by_cases he : e.1 = k
    · rw [if_pos (by simp [he])]
      exact List.lookup_cons_self
    · rw [if_neg (by simp [he])]
      obtain ⟨k0, v0⟩ := e
      rw [List.lookup_cons]
      simp only at he
      rw [beq_eq_false_iff_ne.mpr (Ne.symm he)]
      apply ih
      simp only [List.any_cons, Bool.or_eq_true] at hany
      rcases hany with h1 | h2
      · exact absurd (by simpa using h1) he
      · exact h2

/-- Appending a fresh key's entry makes lookup find it. -/
theorem lookup_append_single {α : Type} :
    ∀ (l : List (String × α)) (k : String) (v : α), l.any (fun e => e.1 == k) = false →
      (l ++ [(k, v)]).lookup k = some v := by
  intro l k v
  induction l with
  | nil => intro _; simp
  | cons e es ih =>
    intro hany
    obtain ⟨k0, v0⟩ := e
    simp only [List.any_cons, Bool.or_eq_false_iff] at hany
    rw [List.cons_append, List.lookup_cons]
    have hne : k ≠ k0 := Ne.symm (beq_eq_false_iff_ne.mp hany.1)
    rw [beq_eq_false_iff_ne.mpr hne]
    exact ih hany.2

/-- Map.set always makes its key map to its value. -/
theorem lookup_mapSet {α : Type} :
    ∀ (l : List (String × α)) (k : String) (v : α), (mapSet l k v).lookup k = some v := by
  intro l k v
  unfold mapSet
  split
  · rename_i hany
    exact lookup_map_replace l k v hany
  · rename_i hany
    exact lookup_append_single l k v (Bool.eq_false_iff.mpr hany)

/-- executePipeline on a known pipeline emits exactly one pipeline_started
event. -/
theorem executePipeline_one_started (t0 t1 : ℤ) (fetch : DataSource → FetchOutcome)
    (persist : List DataRecord → PersistResult) (st : List (String × Pipeline))
    (pid : String) (p : Pipeline) (hp : st.lookup pid = some p) :
    (executePipeline t0 t1 fetch persist st pid).2.1.countP isStartedEv = 1 := by
  have h0 : ((executeWithFallback t0 fetch persist p).events).countP isStartedEv = 0 := by
    rw [List.countP_eq_zero]
    intro ev hevm
    simp [executeWithFallback_no_started t0 fetch persist p ev hevm]
  simp only [executePipeline, hp]
  split <;>
    simp [List.countP_cons, List.countP_append, h0, isStartedEv]

/-- C9: executeNow rejects an unknown pipeline id and a pipeline already in
status running, in both cases changing nothing and starting no execution (no
pipeline_started is emitted); otherwise it runs the pipeline exactly once
(one pipeline_started event), propagates an execution error while leaving
the timers untouched, and on success reschedules the pipeline's timer; and
executePipeline itself throws pipeline-not-found on an unknown id. -/
theorem executeNow_spec (t0 t1 : ℤ) (fetch : DataSource → FetchOutcome)
    (persist : List DataRecord → PersistResult) (st : SchedulerFullState) (pid : String) :
    (st.service.lookup pid = none →
      executeNow t0 t1 fetch persist st pid = (st, [], .error (.pipelineNotFound pid)) ∧
      executePipeline t0 t1 fetch persist st.service pid =
        (st.service, [], .error (.pipelineNotFound pid))) ∧
    (∀ p, st.service.lookup pid = some p → p.status = .running →
      executeNow t0 t1 fetch persist st pid = (st, [], .error (.alreadyRunning pid))) ∧
    (∀ p, st.service.lookup pid = some p → p.status ≠ .running →
      (executeNow t0 t1 fetch persist st pid).2.1.countP isStartedEv = 1 ∧
      (∀ e, (executePipeline t0 t1 fetch persist st.service pid).2.2 = .error e →
        (executeNow t0 t1 fetch persist st pid).2.2 = .error (.serviceError e) ∧
        (executeNow t0 t1 fetch persist st pid).1.timerState = st.timerState) ∧
      (∀ r, (executePipeline t0 t1 fetch persist st.service pid).2.2 = .ok r →
        (executeNow t0 t1 fetch persist st pid).2.2 = .ok () ∧
        (executeNow t0 t1 fetch persist st pid).1.timerState =
          schedulePipelineTimer st.timerState pid)) := by
  refine ⟨?_, ?_, ?_⟩
  · intro hnone
    constructor
    · simp only [executeNow, hnone]
    · simp only [executePipeline, hnone]
  · intro p hp hrun
    simp [executeNow, hp, hrun]
  · intro p hp hrun
    rcases hep : executePipeline t0 t1 fetch persist st.service pid with ⟨svc, evs, res⟩
    have hnoweq : executeNow t0 t1 fetch persist st pid =
        (match res with
          | .ok _ =>
            ({ service := svc, timerState := schedulePipelineTimer st.timerState pid },
              evs, Except.ok ())
          | .error e => ({ st with service := svc }, evs, .error (.serviceError e))) := by
      simp only [executeNow, hp, if_neg hrun, hep]
      cases res <;> rfl
    refine ⟨?_, ?_, ?_⟩
    · have hc := executePipeline_one_started t0 t1 fetch persist st.service pid p hp
      rw [hep] at hc
      rw [hnoweq]
      cases res <;> exact hc
    · intro e he
      have he2 : res = Except.error e := he
      subst he2
      rw [hnoweq]
      exact ⟨rfl, rfl⟩
    · intro r hr
      have hr2 : res = Except.ok r := hr
      subst hr2
      rw [hnoweq]
      exact ⟨rfl, rfl⟩

/-- C10: executePipeline on a known pipeline, whether it completes or
throws, increments totalRuns by exactly one and exactly one of
successfulRuns (on success) or failedRuns (on failure) by one, so the
invariant totalRuns = successfulRuns + failedRuns is preserved; and
initializePipelines starts every pipeline with all-zero run counters, which
satisfy it. -/
theorem executePipeline_metrics (t0 t1 : ℤ) (fetch : DataSource → FetchOutcome)
    (persist : List DataRecord → PersistResult) (st : List (String × Pipeline))
    (pid : String) (p : Pipeline) (hp : st.lookup pid = some p) :
    (∃ q, (executePipeline t0 t1 fetch persist st pid).1.lookup pid = some q ∧
      q.metrics.totalRuns = p.metrics.totalRuns + 1 ∧
      q.metrics.successfulRuns + q.metrics.failedRuns =
        p.metrics.successfulRuns + p.metrics.failedRuns + 1 ∧
      (∀ r, (executePipeline t0 t1 fetch persist st pid).2.2 = .ok r →
        q.metrics.successfulRuns = p.metrics.successfulRuns + 1 ∧
        q.metrics.failedRuns = p.metrics.failedRuns) ∧
      (∀ e, (executePipeline t0 t1 fetch persist st pid).2.2 = .error e →
        q.metrics.failedRuns = p.metrics.failedRuns + 1 ∧
        q.metrics.successfulRuns = p.metrics.successfulRuns) ∧
      (p.metrics.totalRuns = p.metrics.successfulRuns + p.metrics.failedRuns →
        q.metrics.totalRuns = q.metrics.successfulRuns + q.metrics.failedRuns)) ∧
    ∀ (now : ℤ) (cfg : PipelineConfiguration),
      (initializePipeline now cfg).metrics.totalRuns =
        (initializePipeline now cfg).metrics.successfulRuns +
          (initializePipeline now cfg).metrics.failedRuns := by
  constructor
  · simp only [executePipeline, hp]
    split
    · rename_i r hres
      refine ⟨_, lookup_mapSet st pid _, ?_, ?_, ?_, ?_, ?_⟩
      · simp [updatePipelineMetrics]
      · simp [updatePipelineMetrics]
        omega
      · intro r2 hr2
        constructor
        · simp [updatePipelineMetrics]
        · simp [updatePipelineMetrics]
      · intro e he
        simp at he
      · intro hbal
        simp [updatePipelineMetrics]
        omega
    · rename_i e hres
      refine ⟨_, lookup_mapSet st pid _, ?_, ?_, ?_, ?_, ?_⟩
      · simp [updatePipelineMetrics]
      · simp [updatePipelineMetrics]
        omega
      · intro r2 hr2
        simp at hr2
      · intro e2 he2
        constructor
        · simp [updatePipelineMetrics]
        · simp [updatePipelineMetrics]
      · intro hbal
        simp [updatePipelineMetrics]
        omega
  · intro now cfg
    simp [initializePipeline]

/-- C10 witness: the metrics theorem applied at a concrete one-pipeline
state whose pipeline has no sources, so its execution trivially completes. -/
theorem executePipeline_metrics_witness :
    (∃ q, (executePipeline 0 0 (fun _ => .ok []) emptyPersist
        [("addresses_pipeline", samplePipeline [] 0 true)] "addresses_pipeline").1.lookup
          "addresses_pipeline" = some q ∧
      q.metrics.totalRuns = (samplePipeline [] 0 true).metrics.totalRuns + 1 ∧
      q.metrics.successfulRuns + q.metrics.failedRuns =
        (samplePipeline [] 0 true).metrics.successfulRuns +
          (samplePipeline [] 0 true).metrics.failedRuns + 1 ∧
      (∀ r, (executePipeline 0 0 (fun _ => .ok []) emptyPersist
          [("addresses_pipeline", samplePipeline [] 0 true)] "addresses_pipeline").2.2 = .ok r →
        q.metrics.successfulRuns = (samplePipeline [] 0 true).metrics.successfulRuns + 1 ∧
        q.metrics.failedRuns = (samplePipeline [] 0 true).metrics.failedRuns) ∧
      (∀ e, (executePipeline 0 0 (fun _ => .ok []) emptyPersist
          [("addresses_pipeline", samplePipeline [] 0 true)] "addresses_pipeline").2.2 =
            .error e →
        q.metrics.failedRuns = (samplePipeline [] 0 true).metrics.failedRuns + 1 ∧
        q.metrics.successfulRuns = (samplePipeline [] 0 true).metrics.successfulRuns) ∧
      ((samplePipeline [] 0 true).metrics.totalRuns =
          (samplePipeline [] 0 true).metrics.successfulRuns +
            (samplePipeline [] 0 true).metrics.failedRuns →
        q.metrics.totalRuns = q.metrics.successfulRuns + q.metrics.failedRuns)) ∧
    ∀ (now : ℤ) (cfg : PipelineConfiguration),
      (initializePipeline now cfg).metrics.totalRuns =
        (initializePipeline now cfg).metrics.successfulRuns +
          (initializePipeline now cfg).metrics.failedRuns :=
  executePipeline_metrics 0 0 (fun _ => .ok []) emptyPersist
    [("addresses_pipeline", samplePipeline [] 0 true)] "addresses_pipeline"
    (samplePipeline [] 0 true) rfl

end DogPlaces
